import Mathlib

/-!
Verification development for the Sharp MFP export tool
(`sharp_mfp_export/sharp_mfp_export.py`).

The Python source is shallowly embedded below: pure helpers become Lean
functions, the MySQL `job_logs` table becomes a list of rows with the
`INSERT ... ON DUPLICATE KEY UPDATE` statement modelled as an explicit
upsert, exceptions become `Except`, and the filesystem effects of the
cleanup pass become a pure function from directory listings to the list
of deleted file names.  Python `str` values are modelled as Lean
`String`; `None` becomes `Option`.
-/

set_option maxRecDepth 100000

namespace Sharp

/-- Exception values that the embedded code can raise.  `valueError` and
`overflowError` mirror Python's built-in exception classes;
`runtimeError` carries the message of a `RuntimeError` (the protocol
errors raised by `SharpMFP`); `transportError` stands for the
`requests` transport exceptions (timeout, connection refused);
`httpError` is `requests.HTTPError` from `raise_for_status()`. -/
inductive PyExc where
  | valueError
  | overflowError
  | runtimeError (msg : String)
  | transportError (msg : String)
  | httpError (code : Nat)
deriving DecidableEq

/-- Decidable equality for `Except`, so that concrete runs of the
embedded fallible functions can be checked by `decide`. -/
instance {ε α : Type} [DecidableEq ε] [DecidableEq α] : DecidableEq (Except ε α) := fun a b =>
  match a, b with
  | .ok x, .ok y => if h : x = y then isTrue (by rw [h]) else isFalse (by simp [h])
  | .error x, .error y => if h : x = y then isTrue (by rw [h]) else isFalse (by simp [h])
  | .ok _, .error _ => isFalse (by simp)
  | .error _, .ok _ => isFalse (by simp)

/-- Error taxonomy from spec section 7: transport-class failures are the
retryable ones, protocol-class failures (`RuntimeError` in the code) are
not supposed to be. -/
def PyExc.isTransport : PyExc → Bool
  | .transportError _ => true
  | _ => false

/-! ## Python string helpers (ASCII model)

`str.strip`, `str.lower`, `str.upper` are modelled on the ASCII range,
which is faithful for every comparison the source performs (the
non-ASCII strings involved, such as "無限制", contain no cased or
whitespace characters affected by the full Unicode rules). -/

/-- Python whitespace characters recognised by `str.strip()` (ASCII part). -/
def isPyWs (c : Char) : Bool :=
  c = ' ' || c = '\t' || c = '\n' || c = '\x0d' || c = '\x0b' || c = '\x0c'

/-- Drop leading whitespace from a character list. -/
def dropLeadWs (cs : List Char) : List Char := cs.dropWhile isPyWs

/-- Model of Python `str.strip()` on the underlying character list. -/
def stripChars (cs : List Char) : List Char :=
  ((dropLeadWs cs).reverse.dropWhile isPyWs).reverse

/-- Model of Python `str.strip()`. -/
def pyStrip (s : String) : String := ⟨stripChars s.data⟩

/-- ASCII lower-casing of one character (model of `str.lower` per char). -/
def asciiLowerChar (c : Char) : Char :=
  if 'A' ≤ c ∧ c ≤ 'Z' then Char.ofNat (c.toNat + 32) else c

/-- ASCII upper-casing of one character (model of `str.upper` per char). -/
def asciiUpperChar (c : Char) : Char :=
  if 'a' ≤ c ∧ c ≤ 'z' then Char.ofNat (c.toNat - 32) else c

/-- Model of Python `str.lower()`. -/
def asciiLower (s : String) : String := ⟨s.data.map asciiLowerChar⟩

/-- Model of Python `str.upper()`. -/
def asciiUpper (s : String) : String := ⟨s.data.map asciiUpperChar⟩

/-- Model of Python `str.replace(old, "")` for a single character `old`:
removes every occurrence of the character. -/
def removeChar (c : Char) (s : String) : String := ⟨s.data.filter (· ≠ c)⟩

/-- Value of an ASCII decimal digit. -/
def digitVal (c : Char) : Option Nat :=
  if '0' ≤ c ∧ c ≤ '9' then some (c.toNat - '0'.toNat) else none

/-! ## Model of Python `int(str)` and `float(str)`

`int()` accepts optional surrounding whitespace, an optional sign, and a
run of decimal digits in which single underscores may appear between
digits.  `float()` accepts the same sign/whitespace conventions around
either the keywords `inf`/`infinity`/`nan` (case-insensitive) or a
decimal literal `digits [. digits] [e sign digits]` with the same
underscore rule.  We model digits on the ASCII range (CPython also
accepts non-ASCII decimal digits; no claim depends on those). -/

/-- Scan a maximal Python "digitpart" (`digit (["_"] digit)*`) from the
front of the list.  Returns the value, the number of digits consumed and
the rest.  Mirrors the maximal-munch behaviour of CPython's number
grammar: an underscore is consumed only when a digit follows. -/
def scanDigitsGo : List Char → Nat → Nat → Nat × Nat × List Char
  | '_' :: c :: rest, v, n =>
    match digitVal c with
    | some d => scanDigitsGo rest (v * 10 + d) (n + 1)
    | none => (v, n, '_' :: c :: rest)
  | c :: rest, v, n =>
    match digitVal c with
    | some d => scanDigitsGo rest (v * 10 + d) (n + 1)
    | none => (v, n, c :: rest)
  | [], v, n => (v, n, [])

/-- Scan a digitpart that must start with a digit; `none` otherwise. -/
def scanDigits (cs : List Char) : Option (Nat × Nat × List Char) :=
  match cs with
  | c :: rest =>
    match digitVal c with
    | some d => some (scanDigitsGo rest d 1)
    | none => none
  | [] => none

/-- Parse an optional `+`/`-` sign; returns `true` for negative. -/
def scanSign : List Char → Bool × List Char
  | '+' :: rest => (false, rest)
  | '-' :: rest => (true, rest)
  | cs => (false, cs)

/-- Model of Python `int(s)` for a string: `none` models `ValueError`. -/
def pyInt (s : String) : Option Int :=
  let cs := stripChars s.data
  let (neg, cs) := scanSign cs
  match scanDigits cs with
  | some (v, _, rest) =>
    if rest = [] then some (if neg then -(v : Int) else (v : Int)) else none
  | none => none

/-- Result of Python `float(s)`: a finite value, an infinity, or NaN.
The finite case carries the exact rational magnitude of the decimal
literal as an unreduced fraction `num / den` (with `den > 0` by
construction) together with the sign; rounding the literal to the
nearest IEEE double can move the value by less than one ulp, which no
claim in this development depends on.  Overflow of the double range
(magnitude at least `2^1024 - 2^970`, the round-to-even boundary above
`DBL_MAX`) produces an infinity, as CPython's `float()` does. -/
inductive PyF where
  | fin (neg : Bool) (num : Nat) (den : Nat)
  | inf
  | ninf
  | nan
deriving DecidableEq

/-- Magnitude at or above which a decimal literal rounds to an IEEE-754
double infinity (an integer: `2^1024 - 2^970`). -/
def dblOverflow : Nat := 2 ^ 1024 - 2 ^ 970

/-- Model of Python `float(s)`: `none` models `ValueError`. -/
def pyFloat (s : String) : Option PyF :=
  let cs := stripChars s.data
  let (neg, cs) := scanSign cs
  let low := (cs.map asciiLowerChar)
  if low = "inf".data ∨ low = "infinity".data then
    some (if neg then .ninf else .inf)
  else if low = "nan".data then
    some .nan
  else
    -- decimal literal: intpart [. fracpart] [exponent]
    let (iv, ins, cs) :=
      match scanDigits cs with
      | some (v, n, rest) => (v, n, rest)
      | none => (0, 0, cs)
    let (fv, fns, cs) :=
      match cs with
      | '.' :: rest =>
        match scanDigits rest with
        | some (v, n, r) => (v, n, r)
        | none => (0, 0, rest)
      | _ => (0, 0, cs)
    if ins + fns = 0 then none
    else
      let expPart : Option (Bool × Nat × List Char) :=
        match cs with
        | 'e' :: rest | 'E' :: rest =>
          let (eneg, rest) := scanSign rest
          match scanDigits rest with
          | some (v, _, r) => some (eneg, v, r)
          | none => none
        | other => some (false, 0, other)
      match expPart with
      | none => none
      | some (eneg, ev, rest) =>
        if rest = [] then
          let m : Nat := iv * 10 ^ fns + fv
          let num : Nat := if eneg then m else m * 10 ^ ev
          let den : Nat := if eneg then 10 ^ fns * 10 ^ ev else 10 ^ fns
          if dblOverflow * den ≤ num then some (if neg then .ninf else .inf)
          else some (.fin neg num den)
        else none

/-- Truncation toward zero of a signed fraction, the behaviour of
Python `int(float)` on a finite float (`num / den ≥ 0`, so truncation
of the magnitude is natural-number division). -/
def truncFrac (neg : Bool) (num den : Nat) : Int :=
  if neg then -((num / den : Nat) : Int) else ((num / den : Nat) : Int)

/-- The cleaned form that `safe_int` computes before classifying its
input: `value.strip().replace(",", "")`. -/
def cleanedOf (s : String) : String := removeChar ',' (pyStrip s)

/-- Embedding of `safe_int` (sharp_mfp_export.py lines 625-637).
`None` coerces to 0; the cleaned string is checked against the
not-applicable tokens; then `int()`, then `int(float())` with only
`ValueError` caught — so an infinite float (`int(inf)`) raises an
uncaught `OverflowError`, and `int(nan)` raises a `ValueError` that is
caught and coerced to 0. -/
def safe_int (value : Option String) : Except PyExc Int :=
  match value with
  | none => .ok 0
  | some s =>
    let cleaned := cleanedOf s
    if cleaned = "" ∨ asciiLower cleaned ∈ (["n/a", "na", "無限制"] : List String) then
      .ok 0
    else
      match pyInt cleaned with
      | some n => .ok n
      | none =>
        match pyFloat cleaned with
        | none => .ok 0
        | some (.fin neg num den) => .ok (truncFrac neg num den)
        | some .nan => .ok 0
        | some .inf => .error .overflowError
        | some .ninf => .error .overflowError

/-- Embedding of `normalize_name` (lines 640-644): strip, with a
fallback for `None` or an all-whitespace string. -/
def normalize_name (value : Option String) (fallback : String := "未知") : String :=
  match value with
  | none => fallback
  | some s =>
    let cleaned := pyStrip s
    if cleaned = "" then fallback else cleaned

/-! ## Model of `datetime.strptime`

`parse_time_value` (lines 651-670) tries a fixed list of formats with
`datetime.strptime`.  CPython's `strptime` compiles the format into a
regular expression (`1[0-2]|0[1-9]|[1-9]` for `%m`, and so on), takes
the first match of the whole pattern in ordered-backtracking order,
raises `ValueError` when that match does not consume the whole input,
and finally validates the fields through the `datetime` constructor
(which rejects, for example, day 30 in February or second 60).  The
directive-level candidate lists below reproduce the alternation order
of CPython's `TimeRE` patterns. -/

/-- A parsed timestamp (the fields of a `datetime` that this program
uses; the embedded formats carry no sub-second or timezone data). -/
structure DT where
  y : Nat
  m : Nat
  d : Nat
  hh : Nat
  mi : Nat
  ss : Nat
deriving DecidableEq

/-- One directive of a `strptime` format string, restricted to the
directives the source uses. -/
inductive Directive where
  | Y
  | m
  | d
  | H
  | M
  | S
  | lit (c : Char)

/-- Try a two-digit match whose tens and units satisfy `p`. -/
def twoDig (p : Nat → Nat → Bool) : List Char → Option (Nat × List Char)
  | c1 :: c2 :: rest =>
    match digitVal c1, digitVal c2 with
    | some a, some b => if p a b then some (a * 10 + b, rest) else none
    | _, _ => none
  | _ => none

/-- Try a one-digit match satisfying `p`. -/
def oneDig (p : Nat → Bool) : List Char → Option (Nat × List Char)
  | c :: rest =>
    match digitVal c with
    | some a => if p a then some (a, rest) else none
    | none => none
  | [] => none

/-- Candidate matches of one directive at the front of the input, in
the alternation order of CPython's `TimeRE` regular expressions. -/
def dirMatches : Directive → List Char → List (Nat × List Char)
  | .Y, c1 :: c2 :: c3 :: c4 :: rest =>
    match digitVal c1, digitVal c2, digitVal c3, digitVal c4 with
    | some a, some b, some c, some d => [(((a * 10 + b) * 10 + c) * 10 + d, rest)]
    | _, _, _, _ => []
  | .Y, _ => []
  | .m, cs =>
    [twoDig (fun a b => a = 1 ∧ b ≤ 2) cs, twoDig (fun a b => a = 0 ∧ 1 ≤ b) cs,
      oneDig (fun a => 1 ≤ a) cs].reduceOption
  | .d, cs =>
    [twoDig (fun a b => a = 3 ∧ b ≤ 1) cs, twoDig (fun a _ => 1 ≤ a ∧ a ≤ 2) cs,
      twoDig (fun a b => a = 0 ∧ 1 ≤ b) cs, oneDig (fun a => 1 ≤ a) cs].reduceOption
  | .H, cs =>
    [twoDig (fun a b => a = 2 ∧ b ≤ 3) cs, twoDig (fun a _ => a ≤ 1) cs,
      oneDig (fun _ => true) cs].reduceOption
  | .M, cs =>
    [twoDig (fun a _ => a ≤ 5) cs, oneDig (fun _ => true) cs].reduceOption
  | .S, cs =>
    [twoDig (fun a b => a = 6 ∧ b ≤ 1) cs, twoDig (fun a _ => a ≤ 5) cs,
      oneDig (fun _ => true) cs].reduceOption
  | .lit ch, c :: rest => if c = ch then [(0, rest)] else []
  | .lit _, [] => []

/-- Record a matched directive value (`strptime` defaults: year 1900,
month 1, day 1, midnight). -/
def assignDir (pd : DT) : Directive → Nat → DT
  | .Y, v => { pd with y := v }
  | .m, v => { pd with m := v }
  | .d, v => { pd with d := v }
  | .H, v => { pd with hh := v }
  | .M, v => { pd with mi := v }
  | .S, v => { pd with ss := v }
  | .lit _, _ => pd

/-- All matches of the whole format at the front of the input, paired
with the unconsumed remainder, in backtracking order. -/
def fmtMatches : List Directive → List Char → DT → List (DT × List Char)
  | [], cs, pd => [(pd, cs)]
  | dir :: rest, cs, pd =>
    (dirMatches dir cs).flatMap fun vc => fmtMatches rest vc.2 (assignDir pd dir vc.1)

/-- Length of a month, with the Gregorian leap-year rule, as validated
by the `datetime` constructor. -/
def daysInMonth (y m : Nat) : Nat :=
  if m = 2 then
    if y % 4 = 0 ∧ (y % 100 ≠ 0 ∨ y % 400 = 0) then 29 else 28
  else if m ∈ ([4, 6, 9, 11] : List Nat) then 30
  else 31

/-- Validation performed by the `datetime` constructor on the fields
produced by `strptime` (the regular expressions already bound month,
hour and minute; year 0, an out-of-range day, or a leap second still
raise `ValueError`). -/
def validDT (t : DT) : Bool :=
  1 ≤ t.y ∧ t.y ≤ 9999 ∧ 1 ≤ t.m ∧ t.m ≤ 12 ∧ 1 ≤ t.d ∧ t.d ≤ daysInMonth t.y t.m ∧
    t.hh ≤ 23 ∧ t.mi ≤ 59 ∧ t.ss ≤ 59

/-- Model of `datetime.strptime(s, fmt)`: first whole-pattern match in
backtracking order, which must consume the whole string and pass
`datetime` validation; `none` models `ValueError`. -/
def strptime (fmt : List Directive) (s : String) : Option DT :=
  match fmtMatches fmt s.data ⟨1900, 1, 1, 0, 0, 0⟩ with
  | [] => none
  | (pd, rest) :: _ => if rest = [] ∧ validDT pd then some pd else none

/-- The format `"%Y-%m-%dT%H:%M:%S"`. -/
def fmtDashT : List Directive :=
  [.Y, .lit '-', .m, .lit '-', .d, .lit 'T', .H, .lit ':', .M, .lit ':', .S]

/-- The format `"%Y-%m-%d %H:%M:%S"`. -/
def fmtDashSp : List Directive :=
  [.Y, .lit '-', .m, .lit '-', .d, .lit ' ', .H, .lit ':', .M, .lit ':', .S]

/-- The format `"%Y/%m/%d %H:%M:%S"`. -/
def fmtSlashSp : List Directive :=
  [.Y, .lit '/', .m, .lit '/', .d, .lit ' ', .H, .lit ':', .M, .lit ':', .S]

/-- The format `"%Y-%m-%dT%H:%M"`. -/
def fmtDashTShort : List Directive :=
  [.Y, .lit '-', .m, .lit '-', .d, .lit 'T', .H, .lit ':', .M]

/-- The format `"%Y-%m-%d %H:%M"`. -/
def fmtDashSpShort : List Directive :=
  [.Y, .lit '-', .m, .lit '-', .d, .lit ' ', .H, .lit ':', .M]

/-- The format `"%Y/%m/%d %H:%M"`. -/
def fmtSlashSpShort : List Directive :=
  [.Y, .lit '/', .m, .lit '/', .d, .lit ' ', .H, .lit ':', .M]

/-- The format `"%Y-%m-%d"`. -/
def fmtDateOnly : List Directive := [.Y, .lit '-', .m, .lit '-', .d]

/-- The format `"%Y%m%d-%H%M%S"` used for timestamps embedded in export
file names. -/
def fmtCompact : List Directive :=
  [.Y, .m, .d, .lit '-', .H, .M, .S]

/-- The ordered format list of `parse_time_value` (lines 657-665). -/
def timeFormats : List (List Directive) :=
  [fmtDashT, fmtDashSp, fmtSlashSp, fmtDashTShort, fmtDashSpShort, fmtSlashSpShort,
    fmtDateOnly]

/-- Embedding of `parse_time_value` (lines 651-670): empty or `N/A`
input gives `None`; otherwise the first format that parses wins; no
match gives `None`. -/
def parse_time_value (value : Option String) : Option DT :=
  match value with
  | none => none
  | some s =>
    if s = "" then none
    else
      let cleaned := pyStrip s
      if cleaned = "" ∨ asciiUpper cleaned = "N/A" then none
      else
        timeFormats.foldl (fun acc fmt => acc <|> strptime fmt cleaned) none

/-! ## CSV rows and the job-log parser

A row of `csv.DictReader` maps header names to cell values; a value can
be `None` when the physical row is shorter than the header.  `dict.get`
returns `None` both for an absent key and for a key bound to `None`. -/

/-- One CSV row: an association list from header name to cell value. -/
def Row : Type := List (String × Option String)

/-- Model of `row.get(k)` on a `DictReader` row. -/
def rowGet (row : Row) (k : String) : Option String :=
  match row.find? (fun p => p.1 == k) with
  | some p => p.2
  | none => none

/-- Model of Python's `a or b` on `str | None` operands: `a` when `a`
is neither `None` nor the empty string, otherwise `b`. -/
def pyOr (a b : Option String) : Option String :=
  match a with
  | some s => if s = "" then b else some s
  | none => b

/-- Chained `row.get(k1) or row.get(k2) or ...` over a list of header
names. -/
def chainGet (row : Row) : List String → Option String
  | [] => none
  | [k] => rowGet row k
  | k :: ks => pyOr (rowGet row k) (chainGet row ks)

/-- A parsed job-log entry: the dict built by
`_joblog_entries_from_csv_raw` (lines 1177-1203).  `end` is a Lean
keyword, so the completion timestamp is named `end_`. -/
structure Entry where
  job_id : Option String
  account_job_id : Option String
  mode : Option String
  computer : Option String
  user : Option String
  login : Option String
  start : Option DT
  end_ : Option DT
  bw : Int
  color : Int
  file_name : Option String
  scan_type : Option String
  destination : Option String
  pages : Int
  user_display : String
  user_key : String
  login_display : String
  login_key : String
deriving DecidableEq

/-- Embedding of the per-row body of `_joblog_entries_from_csv_raw`
(lines 1179-1202).  `safe_int` can raise (uncaught `OverflowError`), so
the result is in `Except`. -/
def mkEntry (row : Row) : Except PyExc Entry := do
  let user_display := normalize_name (rowGet row "用戶名稱") "未知"
  let login_display := normalize_name (rowGet row "登入名稱") "N/A"
  let bw ← safe_int (rowGet row "黑白總張數")
  let color ← safe_int (rowGet row "全彩總張數")
  pure
    { job_id := pyOr (rowGet row "工作ID") (rowGet row "Job ID")
      account_job_id := pyOr (rowGet row "帳戶工作ID") (rowGet row "Account Job ID")
      mode := pyOr (rowGet row "工作模式") (pyOr (rowGet row "Job Mode") (rowGet row "Mode"))
      computer := pyOr (rowGet row "電腦名稱") (rowGet row "Computer Name")
      user := pyOr (rowGet row "用戶名稱") (rowGet row "User Name")
      login := pyOr (rowGet row "登入名稱") (rowGet row "Login Name")
      start := parse_time_value (pyOr (rowGet row "開始日期") (rowGet row "Start Date"))
      end_ := parse_time_value (pyOr (rowGet row "完成日期") (rowGet row "Completion Date"))
      bw := bw
      color := color
      file_name := rowGet row "檔案名稱"
      scan_type := rowGet row "傳送類型"
      destination := rowGet row "直接位址"
      pages := bw + color
      user_display := user_display
      user_key := asciiLower user_display
      login_display := login_display
      login_key := asciiLower login_display }

/-- Effectful map over a list in the `Except` monad: a Python `for`
loop that builds a list and propagates the first raised exception. -/
def exceptMapM {ε α β : Type} (f : α → Except ε β) : List α → Except ε (List β)
  | [] => .ok []
  | a :: as_ => do
    let b ← f a
    let bs ← exceptMapM f as_
    pure (b :: bs)

/-- Embedding of `_joblog_entries_from_csv_raw` over the list of parsed
CSV rows. -/
def joblog_entries (rows : List Row) : Except PyExc (List Entry) :=
  exceptMapM mkEntry rows

/-- The file-name conjunct of the spec's field-lookup contract, stated
for a candidate English alias `a`: every row's parsed `file_name` is
the localized header's value, falling back to the alias.  This
definition follows the spec's words (spec 4.3 and the CSV schema of
spec 6), not the code: the code consults no English alias for this
field, and the spec does not spell the alias out, so the alias is a
parameter and the claim quantifies over it. -/
def fileNameLookupPerSpec (a : String) : Prop :=
  ∀ row : Row, (mkEntry row).map (fun e => e.file_name) = .ok (chainGet row ["檔案名稱", a])

/-! ## The `job_logs` table and `sync_csv_to_db`

The table (`init_db`, lines 69-89) has
`UNIQUE KEY unique_job (printer_addr, job_id, start_time)` and the
ingest statement (lines 166-180) is `INSERT ... ON DUPLICATE KEY
UPDATE` over exactly `file_name`, `scan_type`, `destination`,
`bw_pages`, `color_pages`, `total_pages`.  The table is modelled as a
list of rows and the batch `executemany` as a left fold of single-row
upserts.  Following MySQL semantics, a `NULL` in a unique-key column
never collides: two rows whose `job_id` is `NULL` do not conflict
(MySQL reference manual: "A UNIQUE index permits multiple NULL values
for columns that can contain NULL").  String comparison is modelled as
exact equality; MySQL's default collation is additionally
case-insensitive, which no claim below depends on (re-ingested values
are byte-identical to the originals). -/

/-- One persisted row of the `job_logs` table (the `id` and
`created_at` columns play no role in any claim and are omitted). -/
structure JobRow where
  printer_addr : String
  job_id : Option String
  account_job_id : Option String
  mode : Option String
  user_name : Option String
  login_name : Option String
  computer_name : Option String
  start_time : Option DT
  end_time : Option DT
  bw_pages : Int
  color_pages : Int
  total_pages : Int
  file_name : Option String
  scan_type : Option String
  destination : Option String
deriving DecidableEq

/-- Whether an insert of `b` collides with existing row `a` on the
unique key `(printer_addr, job_id, start_time)`.  `NULL` never equals
`NULL` in a MySQL unique index, so an optional column only collides
when both sides are non-`NULL` and equal. -/
def keyConflict (a b : JobRow) : Bool :=
  (a.printer_addr = b.printer_addr : Bool) &&
    (match a.job_id, b.job_id with
      | some x, some y => (x = y : Bool)
      | _, _ => false) &&
    (match a.start_time, b.start_time with
      | some s, some t => (s = t : Bool)
      | _, _ => false)

/-- The `ON DUPLICATE KEY UPDATE` clause: overwrite exactly
`file_name`, `scan_type`, `destination`, `bw_pages`, `color_pages`,
`total_pages` with the incoming values; every other column keeps its
stored value. -/
def applyDupUpdate (old new : JobRow) : JobRow :=
  { old with
    file_name := new.file_name
    scan_type := new.scan_type
    destination := new.destination
    bw_pages := new.bw_pages
    color_pages := new.color_pages
    total_pages := new.total_pages }

/-- Insert one row with `ON DUPLICATE KEY UPDATE`: update the (unique)
conflicting row if one exists, otherwise append. -/
def upsert : List JobRow → JobRow → List JobRow
  | [], r => [r]
  | x :: xs, r => if keyConflict x r then applyDupUpdate x r :: xs else x :: upsert xs r

/-- The value tuple built for one entry (lines 188-204). -/
def toJobRow (printer : String) (e : Entry) : JobRow :=
  { printer_addr := printer
    job_id := e.job_id
    account_job_id := e.account_job_id
    mode := e.mode
    user_name := e.user
    login_name := e.login
    computer_name := e.computer
    start_time := e.start
    end_time := e.end_
    bw_pages := e.bw
    color_pages := e.color
    total_pages := e.pages
    file_name := e.file_name
    scan_type := e.scan_type
    destination := e.destination }

/-- The batch of value tuples prepared by `sync_csv_to_db` (lines
183-204): entries whose `start` is `None` are skipped (`if not
e.get("start"): continue`; a `datetime` is always truthy). -/
def syncValues (printer : String) (entries : List Entry) : List JobRow :=
  (entries.filter (fun e => e.start.isSome)).map (toJobRow printer)

/-- Embedding of `sync_csv_to_db` (lines 156-211): parse the CSV rows,
keep the entries with a start time, and upsert them in order into the
table.  The Python return value is the driver's affected-row count,
which no claim uses; the model returns the new table state. -/
def sync_csv_to_db (rows : List Row) (printer : String) (db : List JobRow) :
    Except PyExc (List JobRow) := do
  let entries ← joblog_entries rows
  pure ((syncValues printer entries).foldl upsert db)

/-- The batch of rows a CSV would persist, independent of the table
state: parse, filter on start time, convert to value tuples. -/
def persistedValues (rows : List Row) (printer : String) : Except PyExc (List JobRow) :=
  (joblog_entries rows).map (syncValues printer)

/-! ## `collect_usercount_usage` and `sync_usercount_to_db` -/

/-- Model of Python `str.replace(old, new)` for single characters. -/
def replaceChar (old new : Char) (s : String) : String :=
  ⟨s.data.map (fun c => if c = old then new else c)⟩

/-- Whether `pre` is a prefix of `l` (needed for the substring scans
below). -/
def isPre : List Char → List Char → Bool
  | [], _ => true
  | _ :: _, [] => false
  | a :: as_, b :: bs => a = b && isPre as_ bs

/-- The characters before the first occurrence of `needle`, or `none`
when `needle` does not occur: models `s.split(needle, 1)[0]` combined
with the `needle in s` membership test. -/
def takeBeforeSub (needle : List Char) : List Char → Option (List Char)
  | [] => if needle = [] then some [] else none
  | c :: rest =>
    if isPre needle (c :: rest) then some []
    else (takeBeforeSub needle rest).map (c :: ·)

/-- Model of Python's `needle in s` substring test. -/
def hasSub (hay needle : String) : Bool := (takeBeforeSub needle.data hay.data).isSome

/-- Model of `str.rstrip(":")`: drop trailing colons. -/
def rstripColon (s : String) : String :=
  ⟨(s.data.reverse.dropWhile (· = ':')).reverse⟩

/-- Add `v` to key `k` of an insertion-ordered dict modelled as an
association list (`usage[category] = usage.get(category, 0) + v`). -/
def assocAdd (k : String) (v : Int) : List (String × Int) → List (String × Int)
  | [] => [(k, v)]
  | (k', v') :: rest =>
    if k' = k then (k', v' + v) :: rest else (k', v') :: assocAdd k v rest

/-- Embedding of `collect_usercount_usage` (lines 1077-1089): walk the
row's items in order; skip the empty and the user-name key; normalise
full-width colons; keep only keys containing "已使用"; the category is
the text before that marker with trailing colons stripped; accumulate
`safe_int` of the cell. -/
def collect_usercount_usage (row : Row) : Except PyExc (List (String × Int)) :=
  row.foldlM
    (fun usage kv => do
      let (key, value) := kv
      if key = "" ∨ key = "用戶名稱" then
        pure usage
      else
        let normalized := replaceChar '：' ':' key
        match takeBeforeSub "已使用".data normalized.data with
        | none => pure usage
        | some before =>
          let category := rstripColon ⟨before⟩
          if category = "" then
            pure usage
          else do
            let v ← safe_int value
            pure (assocAdd category v usage))
    []

/-- Integer lookup with default 0: `usage.get(label, 0)`. -/
def usageGet (usage : List (String × Int)) (k : String) : Int :=
  match usage.find? (fun p => p.1 == k) with
  | some p => p.2
  | none => 0

/-- One persisted row of the `user_counts` table. -/
structure UCRow where
  printer_addr : String
  user_name : String
  print_bw : Int
  print_color : Int
  copy_bw : Int
  copy_color : Int
  other_usage : Int
  total_pages : Int
  snapshot_time : DT
deriving DecidableEq

/-- The snapshot tuple `sync_usercount_to_db` builds for one parsed row
(lines 243-268), or `none` when the row is dropped because its computed
total is zero (`if total == 0: continue`). -/
def ucRowValue (printer : String) (ts : DT) (row : Row) : Except PyExc (Option UCRow) := do
  let user_name := normalize_name (rowGet row "用戶名稱") "N/A"
  let usage ← collect_usercount_usage row
  let print_bw := usageGet usage "印表機:黑白"
  let print_color := usageGet usage "印表機:全彩"
  let copy_bw := usageGet usage "影印:黑白"
  let copy_color := usageGet usage "影印:全彩"
  let known_sum := print_bw + print_color + copy_bw + copy_color
  let total := (usage.map (·.2)).sum
  let other := total - known_sum
  if total = 0 then
    pure none
  else
    pure (some
      { printer_addr := printer
        user_name := user_name
        print_bw := print_bw
        print_color := print_color
        copy_bw := copy_bw
        copy_color := copy_color
        other_usage := other
        total_pages := total
        snapshot_time := ts })

/-- Model of `pathlib.PurePath.stem`: the file name with its last
suffix removed; a leading dot with no later dot, or a trailing dot, is
not a suffix. -/
def pyStem (name : String) : String :=
  let cs := name.data
  match cs.reverse.findIdx? (· = '.') with
  | none => name
  | some j =>
    let i := cs.length - 1 - j
    if 0 < i ∧ i < cs.length - 1 then ⟨cs.take i⟩ else name

/-- Split a character list on a separator character, Python
`str.split(sep)` semantics (`""` splits to `[""]`). -/
def splitChar (sep : Char) : List Char → List (List Char)
  | [] => [[]]
  | c :: rest =>
    let r := splitChar sep rest
    if c = sep then [] :: r
    else
      match r with
      | h :: t => (c :: h) :: t
      | [] => [[c]]

/-- Model of `s.split("_")`. -/
def splitUnderscore (s : String) : List String := (splitChar '_' s.data).map (⟨·⟩)

/-- The snapshot timestamp of `sync_usercount_to_db` (lines 223-230):
parsed from the trailing `_YYYYMMDD-HHMMSS` of the file's stem, falling
back to the current time `now` when absent or unparsable. -/
def ucTimestamp (now : DT) (fileName : String) : DT :=
  match strptime fmtCompact ((splitUnderscore (pyStem fileName)).getLastD "") with
  | some t => t
  | none => now

/-- Embedding of `sync_usercount_to_db` (lines 214-274): parse the
rows, drop zero-total rows, and insert the remaining snapshot tuples.
The model returns the inserted tuples in order. -/
def sync_usercount_to_db (rows : List Row) (printer : String) (now : DT)
    (fileName : String) : Except PyExc (List UCRow) := do
  let ts := ucTimestamp now fileName
  let opts ← exceptMapM (ucRowValue printer ts) rows
  pure opts.reduceOption

/-! ## `request_with_retry`

Lines 612-622: `for i in range(RETRY + 1)` around an arbitrary callable
that either returns a value or raises; every exception is caught, the
wrapper sleeps `1.0 + i` seconds when attempts remain, and re-raises
the last exception after the final attempt.  The operation is modelled
as a function from the attempt index to an `Except` outcome; the model
returns the final outcome, the number of attempts performed, and the
list of sleep durations (in seconds) in order. -/

/-- The retry loop from attempt `i` with `rem` further attempts
allowed after the current one. -/
def retryGo {ε α : Type} (f : Nat → Except ε α) (i : Nat) : Nat → Except ε α × Nat × List Nat
  | 0 => (f i, 1, [])
  | rem + 1 =>
    match f i with
    | .ok v => (.ok v, 1, [])
    | .error _ =>
      let (r, n, s) := retryGo f (i + 1) rem
      (r, n + 1, (1 + i) :: s)

/-- The module-level retry count (`RETRY = 2`, line 583). -/
def RETRY : Nat := 2

/-- Embedding of `request_with_retry` with the configured retry
count. -/
def request_with_retry {ε α : Type} (f : Nat → Except ε α) : Except ε α × Nat × List Nat :=
  retryGo f 0 RETRY

/-! ## `extract_hidden_value` and `SharpMFP.login` -/

/-- The tail of the token pattern after the `name="<field>"` literal:
one or more whitespace characters, the literal `value="`, then the
captured value up to the next double quote (which must exist).  Mirrors
the regular expression of `extract_hidden_value` (line 608). -/
def matchTokenTail (cs : List Char) : Option (List Char) :=
  let ws := cs.takeWhile isPyWs
  if ws = [] then none
  else
    let cs2 := cs.drop ws.length
    let vq := ("value=" ++ "\"").data
    if isPre vq cs2 then
      let cs3 := cs2.drop vq.length
      let cap := cs3.takeWhile (· ≠ '"')
      if cap.length < cs3.length then some cap else none
    else none

/-- Scan for the first position where the whole token pattern matches
(`re.search` semantics: on a failed partial match, resume the scan one
character later). -/
def extractGo (needle : List Char) : List Char → Option (List Char)
  | [] => none
  | c :: rest =>
    match (if isPre needle (c :: rest) then matchTokenTail ((c :: rest).drop needle.length) else none) with
    | some cap => some cap
    | none => extractGo needle rest

/-- Embedding of `extract_hidden_value` (lines 603-609): the first
`name="<name>" value="..."` occurrence's value, or `""` when the
pattern does not occur. -/
def extract_hidden_value (html name : String) : String :=
  match extractGo (("name=" ++ "\"").data ++ name.data ++ ['"']) html.data with
  | some cap => ⟨cap⟩
  | none => ""

/-- An HTTP response as `login` observes it: the final URL after
redirects, the status code, and the body text. -/
structure HttpResp where
  url : String
  status : Nat
  body : String

/-- `Response.raise_for_status()` raises for 4xx and 5xx codes. -/
def httpRaises (r : HttpResp) : Bool := 400 ≤ r.status ∧ r.status < 600

/-- The three responses a run of `login()` observes: the GET of the
login page, the credential POST, and the verification GET of
`main.html`. -/
structure LoginEnv where
  loginGet : HttpResp
  loginPost : HttpResp
  mainGet : HttpResp

/-- Embedding of `SharpMFP.login` (lines 749-776).  Returns the outcome
and whether the credential POST was attempted.  Step order: GET the
login page and `raise_for_status`; extract `token2` and raise
`RuntimeError` when it is empty, before any POST; POST the credentials
and `raise_for_status`; GET `main.html` (no status check) and raise
`RuntimeError` when its final URL contains `login.html`. -/
def login (env : LoginEnv) : Except PyExc Unit × Bool :=
  if httpRaises env.loginGet then
    (.error (.httpError env.loginGet.status), false)
  else
    let token2 := extract_hidden_value env.loginGet.body "token2"
    if token2 = "" then
      (.error (.runtimeError "login token2 not found (UI/firmware changed or blocked)"), false)
    else if httpRaises env.loginPost then
      (.error (.httpError env.loginPost.status), true)
    else if hasSub env.mainGet.url "login.html" then
      (.error (.runtimeError ("login failed (redirected to " ++ env.mainGet.url ++ ")")), true)
    else
      (.ok (), true)

/-! ## `cleanup_old_exports`

Lines 860-896: for each of the `usercount` and `joblog` directories,
glob `*.csv`, keep regular files whose stem splits on `_` into at least
3 parts, group by the middle tag, sort each group by file name
descending (Python's sort is stable; a stable sort's output is uniquely
determined by the comparator and input order, so the insertion sort
below is extensionally the same as `list.sort(key=..., reverse=True)`),
keep the first two and unlink the rest.  The filesystem is modelled as
a directory listing; the model returns the names passed to `unlink`. -/

/-- A directory entry: a file name and whether it is a regular file
(`p.is_file()`). -/
structure FSEntry where
  name : String
  isFile : Bool
deriving DecidableEq

/-- Whether a name matches the glob pattern `*.csv`. -/
def csvGlob (name : String) : Bool := isPre (".csv".data.reverse) name.data.reverse

/-- The underscore-separated parts of a file's stem. -/
def stemParts (name : String) : List String := splitUnderscore (pyStem name)

/-- The files the cleanup pass considers (glob match, regular file,
at least 3 stem parts), in listing order. -/
def eligibleFiles (listing : List FSEntry) : List FSEntry :=
  listing.filter (fun e => csvGlob e.name && e.isFile && decide (3 ≤ (stemParts e.name).length))

/-- Join with underscores: models `"_".join(parts)`. -/
def joinUnderscore : List String → String
  | [] => ""
  | [s] => s
  | s :: rest => s ++ "_" ++ joinUnderscore rest

/-- The printer tag of an eligible file name: the stem parts between
the prefix and the trailing timestamp, rejoined (`"_".join(parts[1:-1])`). -/
def tagOf (name : String) : String := joinUnderscore ((stemParts name).drop 1 |>.dropLast)

/-- Lexicographic strict order on character lists by code point — the
order Python uses to compare `str` values. -/
def lexLt : List Char → List Char → Bool
  | [], [] => false
  | [], _ :: _ => true
  | _ :: _, [] => false
  | a :: as_, b :: bs =>
    if a.toNat < b.toNat then true
    else if b.toNat < a.toNat then false
    else lexLt as_ bs

/-- Lexicographic reflexive order on character lists by code point. -/
def lexLe : List Char → List Char → Bool
  | [], _ => true
  | _ :: _, [] => false
  | a :: as_, b :: bs =>
    if a.toNat < b.toNat then true
    else if b.toNat < a.toNat then false
    else lexLe as_ bs

/-- Python's `<` on file names (code-point lexicographic). -/
def nameLt (s t : String) : Bool := lexLt s.data t.data

/-- Python's `<=` on file names (code-point lexicographic). -/
def nameLe (s t : String) : Bool := lexLe s.data t.data

/-- Stable insertion of `a` (original position before the list) into a
name-descending sorted list: `a` goes before the first element whose
name is not larger, so equal names keep their original order. -/
def insertDesc (a : FSEntry) : List FSEntry → List FSEntry
  | [] => [a]
  | y :: ys => if nameLe y.name a.name then a :: y :: ys else y :: insertDesc a ys

/-- Model of `files.sort(key=lambda x: x.name, reverse=True)` (a stable
descending sort by name). -/
def pySortDesc : List FSEntry → List FSEntry
  | [] => []
  | x :: xs => insertDesc x (pySortDesc xs)

/-- First-occurrence deduplication: the iteration order of the
`defaultdict` keys (insertion order). -/
def dedupKeepFirst (l : List String) : List String :=
  l.foldl (fun acc t => if t ∈ acc then acc else acc ++ [t]) []

/-- The tags of a directory's eligible files in first-appearance
order. -/
def tagsIn (files : List FSEntry) : List String :=
  dedupKeepFirst (files.map (fun e => tagOf e.name))

/-- The group of eligible files carrying tag `t`, in listing order
(the `defaultdict(list)` bucket for `t`). -/
def groupOf (files : List FSEntry) (t : String) : List FSEntry :=
  files.filter (fun e => (tagOf e.name = t : Bool))

/-- The names `cleanup_old_exports` unlinks in one directory: for every
tag group, everything after the first two of the name-descending
sort. -/
def dirDeletions (listing : List FSEntry) : List String :=
  let els := eligibleFiles listing
  (tagsIn els).flatMap (fun t => ((pySortDesc (groupOf els t)).drop 2).map (fun e => e.name))

/-- Embedding of `cleanup_old_exports` (lines 860-896) over the
listings of the `usercount` and `joblog` directories: the pair of
deleted-name lists.  No other path on disk is touched. -/
def cleanup_old_exports (ucListing jlListing : List FSEntry) : List String × List String :=
  (dirDeletions ucListing, dirDeletions jlListing)

/-! ## Helper lemmas about the retry loop -/

lemma retryGo_attempts_le {ε α : Type} (f : Nat → Except ε α) (rem i : Nat) :
    (retryGo f i rem).2.1 ≤ rem + 1 := by
  induction rem generalizing i with
  | zero => simp [retryGo]
  | succ r ih =>
    simp only [retryGo]
    cases f i with
    | ok v => simp
    | error e =>
      rcases h : retryGo f (i + 1) r with ⟨res, n, s⟩
      have := ih (i + 1)
      rw [h] at this
      simpa using Nat.succ_le_succ this

lemma retryGo_first_success {ε α : Type} (f : Nat → Except ε α) :
    ∀ (k i rem : Nat) (v : α), k ≤ rem →
      (∀ j, j < k → ∃ e, f (i + j) = .error e) → f (i + k) = .ok v →
      retryGo f i rem = (.ok v, k + 1, (List.range k).map (fun j => 1 + (i + j))) := by
  intro k
  induction k with
  | zero =>
    intro i rem v _ _ hok
    rw [Nat.add_zero] at hok
    cases rem with
    | zero => simp [retryGo, hok]
    | succ r => simp [retryGo, hok]
  | succ k ih =>
    intro i rem v hk hfail hok
    obtain ⟨e, he⟩ := hfail 0 (Nat.succ_pos k)
    rw [Nat.add_zero] at he
    cases rem with
    | zero => omega
    | succ r =>
      have hk' : k ≤ r := by omega
      have hfail' : ∀ j, j < k → ∃ e', f (i + 1 + j) = .error e' := by
        intro j hj
        obtain ⟨e', he'⟩ := hfail (j + 1) (by omega)
        exact ⟨e', by rw [show i + 1 + j = i + (j + 1) by omega]; exact he'⟩
      have hok' : f (i + 1 + k) = .ok v := by
        rw [show i + 1 + k = i + (k + 1) by omega]; exact hok
      simp only [retryGo, he]
      rw [ih (i + 1) r v hk' hfail' hok']
      refine Prod.ext rfl (Prod.ext rfl ?_)
      simp only [List.range_succ_eq_map, List.map_cons, List.map_map]
      refine congrArg₂ _ (by omega) (List.map_congr_left ?_)
      intro j _
      simp only [Function.comp_apply]
      omega

lemma retryGo_all_fail {ε α : Type} (f : Nat → Except ε α) :
    ∀ (rem i : Nat) (e : ε),
      (∀ j, j < rem → ∃ e', f (i + j) = .error e') → f (i + rem) = .error e →
      retryGo f i rem = (.error e, rem + 1, (List.range rem).map (fun j => 1 + (i + j))) := by
  intro rem
  induction rem with
  | zero =>
    intro i e _ hlast
    rw [Nat.add_zero] at hlast
    simp [retryGo, hlast]
  | succ r ih =>
    intro i e hfail hlast
    obtain ⟨e0, he0⟩ := hfail 0 (Nat.succ_pos r)
    rw [Nat.add_zero] at he0
    have hfail' : ∀ j, j < r → ∃ e', f (i + 1 + j) = .error e' := by
      intro j hj
      obtain ⟨e', he'⟩ := hfail (j + 1) (by omega)
      exact ⟨e', by rw [show i + 1 + j = i + (j + 1) by omega]; exact he'⟩
    have hlast' : f (i + 1 + r) = .error e := by
      rw [show i + 1 + r = i + (r + 1) by omega]; exact hlast
    simp only [retryGo, he0]
    rw [ih (i + 1) e hfail' hlast']
    refine Prod.ext rfl (Prod.ext rfl ?_)
    simp only [List.range_succ_eq_map, List.map_cons, List.map_map]
    refine congrArg₂ _ (by omega) (List.map_congr_left ?_)
    intro j _
    simp only [Function.comp_apply]
    omega

/-- Characterization of `safe_int` on a present string, by unfolding
the definition (used to reason by cases on the cleaned input). -/
lemma safe_int_some_eq (s : String) : safe_int (some s) =
    (if cleanedOf s = "" ∨ asciiLower (cleanedOf s) ∈ (["n/a", "na", "無限制"] : List String) then
      .ok 0
    else
      match pyInt (cleanedOf s) with
      | some n => .ok n
      | none =>
        match pyFloat (cleanedOf s) with
        | none => .ok 0
        | some (.fin neg num den) => .ok (truncFrac neg num den)
        | some .nan => .ok 0
        | some .inf => .error .overflowError
        | some .ninf => .error .overflowError) := rfl

/-- Unfolding of `mkEntry` into an explicit case split on the two
`safe_int` calls, with the resulting record spelled out. -/
lemma mkEntry_cases (row : Row) : mkEntry row =
    (match safe_int (rowGet row "黑白總張數") with
      | .error pe => .error pe
      | .ok bw =>
        match safe_int (rowGet row "全彩總張數") with
        | .error pe => .error pe
        | .ok color =>
          .ok
            { job_id := pyOr (rowGet row "工作ID") (rowGet row "Job ID")
              account_job_id := pyOr (rowGet row "帳戶工作ID") (rowGet row "Account Job ID")
              mode :=
                pyOr (rowGet row "工作模式") (pyOr (rowGet row "Job Mode") (rowGet row "Mode"))
              computer := pyOr (rowGet row "電腦名稱") (rowGet row "Computer Name")
              user := pyOr (rowGet row "用戶名稱") (rowGet row "User Name")
              login := pyOr (rowGet row "登入名稱") (rowGet row "Login Name")
              start := parse_time_value (pyOr (rowGet row "開始日期") (rowGet row "Start Date"))
              end_ :=
                parse_time_value (pyOr (rowGet row "完成日期") (rowGet row "Completion Date"))
              bw := bw
              color := color
              file_name := rowGet row "檔案名稱"
              scan_type := rowGet row "傳送類型"
              destination := rowGet row "直接位址"
              pages := bw + color
              user_display := normalize_name (rowGet row "用戶名稱") "未知"
              user_key := asciiLower (normalize_name (rowGet row "用戶名稱") "未知")
              login_display := normalize_name (rowGet row "登入名稱") "N/A"
              login_key := asciiLower (normalize_name (rowGet row "登入名稱") "N/A") }) := by
  unfold mkEntry
  cases safe_int (rowGet row "黑白總張數") with
  | error pe => rfl
  | ok bw =>
    cases safe_int (rowGet row "全彩總張數") with
    | error pe => rfl
    | ok color => rfl

/-- A successful `mkEntry` determines the entry's fields: they are the
header lookups of the source, with the numeric fields through
`safe_int` and the page total computed as their sum. -/
lemma mkEntry_ok_elim {row : Row} {e : Entry} (h : mkEntry row = .ok e) :
    ∃ bw color, safe_int (rowGet row "黑白總張數") = .ok bw
      ∧ safe_int (rowGet row "全彩總張數") = .ok color
      ∧ e =
        { job_id := pyOr (rowGet row "工作ID") (rowGet row "Job ID")
          account_job_id := pyOr (rowGet row "帳戶工作ID") (rowGet row "Account Job ID")
          mode := pyOr (rowGet row "工作模式") (pyOr (rowGet row "Job Mode") (rowGet row "Mode"))
          computer := pyOr (rowGet row "電腦名稱") (rowGet row "Computer Name")
          user := pyOr (rowGet row "用戶名稱") (rowGet row "User Name")
          login := pyOr (rowGet row "登入名稱") (rowGet row "Login Name")
          start := parse_time_value (pyOr (rowGet row "開始日期") (rowGet row "Start Date"))
          end_ := parse_time_value (pyOr (rowGet row "完成日期") (rowGet row "Completion Date"))
          bw := bw
          color := color
          file_name := rowGet row "檔案名稱"
          scan_type := rowGet row "傳送類型"
          destination := rowGet row "直接位址"
          pages := bw + color
          user_display := normalize_name (rowGet row "用戶名稱") "未知"
          user_key := asciiLower (normalize_name (rowGet row "用戶名稱") "未知")
          login_display := normalize_name (rowGet row "登入名稱") "N/A"
          login_key := asciiLower (normalize_name (rowGet row "登入名稱") "N/A") } := by
  rw [mkEntry_cases] at h
  cases hbw : safe_int (rowGet row "黑白總張數") with
  | error pe => rw [hbw] at h; exact absurd h (by simp)
  | ok bw =>
    rw [hbw] at h
    cases hcl : safe_int (rowGet row "全彩總張數") with
    | error pe => rw [hcl] at h; exact absurd h (by simp)
    | ok color =>
      rw [hcl] at h
      exact ⟨bw, color, rfl, rfl, (Except.ok.inj h).symm⟩

/-- The value of a `dict.get` on a one-entry row. -/
lemma rowGet_single (a : String) (v : Option String) (k : String) :
    rowGet [(a, v)] k = if a = k then v else none := by
  by_cases hk : a = k
  · subst hk; simp [rowGet, List.find?]
  · simp only [rowGet, List.find?, beq_eq_false_iff_ne.mpr hk, if_neg hk]

/-- Whether an `Except` is a success. -/
def isOkE {ε α : Type} : Except ε α → Bool
  | .ok _ => true
  | .error _ => false

/-- A chained lookup over headers that are all absent yields `None`. -/
lemma chainGet_none (row : Row) :
    ∀ ks, (∀ k ∈ ks, rowGet row k = none) → chainGet row ks = none := by
  intro ks
  induction ks with
  | nil => intro _; rfl
  | cons k ks ih =>
    intro hks
    cases ks with
    | nil => exact hks k (List.mem_singleton_self k)
    | cons k2 ks2 =>
      show pyOr (rowGet row k) (chainGet row (k2 :: ks2)) = none
      rw [hks k (by simp), ih (fun k' hk' => hks k' (by simp [hk']))]
      rfl

/-! ## Claim theorems -/

/-- C6: for every operation and configured retry count `n`,
`request_with_retry` attempts the operation at most `n + 1` times,
strictly sequentially; it returns the result of the first successful
attempt (an operation failing on attempts `0 .. k-1` and succeeding on
attempt `k ≤ n` yields that success after exactly `k + 1` attempts);
it sleeps `1 + attempt_index` seconds between consecutive attempts
(base 1.0, in order); and when all `n + 1` attempts raise it propagates
the last exception verbatim.  `request_with_retry` itself is the loop
at the module's configured count `RETRY`. -/
theorem C6_retry_contract {α : Type} (f : Nat → Except PyExc α) (n : Nat) :
    (retryGo f 0 n).2.1 ≤ n + 1
    ∧ (∀ k v, k ≤ n → (∀ j, j < k → ∃ e, f j = .error e) → f k = .ok v →
        retryGo f 0 n = (.ok v, k + 1, (List.range k).map (fun j => 1 + j)))
    ∧ (∀ e, (∀ j, j < n → ∃ e', f j = .error e') → f n = .error e →
        retryGo f 0 n = (.error e, n + 1, (List.range n).map (fun j => 1 + j)))
    ∧ request_with_retry f = retryGo f 0 RETRY := by
  refine ⟨retryGo_attempts_le f n 0, ?_, ?_, rfl⟩
  · intro k v hk hfail hok
    have := retryGo_first_success f k 0 n v hk (by simpa using hfail) (by simpa using hok)
    simpa using this
  · intro e hfail hlast
    have := retryGo_all_fail f n 0 e (by simpa using hfail) (by simpa using hlast)
    simpa using this

/-- C6 witness: an operation raising a transport failure on the first
two invocations and succeeding on the third, with retry count `RETRY =
2`, returns the success after 3 attempts, having slept 1 then 2
seconds. -/
theorem C6_retry_contract_witness :
    request_with_retry
        (fun i => if i < 2 then (.error (PyExc.transportError "timeout") : Except PyExc Nat)
          else .ok 42) =
      (.ok 42, 3, [1, 2]) := by
  have h :=
    (C6_retry_contract
        (fun i => if i < 2 then (.error (PyExc.transportError "timeout") : Except PyExc Nat)
          else .ok 42) 2).2.1 2 42 (by decide)
      (fun j hj => ⟨PyExc.transportError "timeout", by
        have hj' : j = 0 ∨ j = 1 := by omega
        rcases hj' with h' | h' <;> subst h' <;> decide⟩)
      (by decide)
  simpa using h

/-- C3 counterexample: the claim says a protocol-class error (such as
the missing-token `RuntimeError`) is propagated immediately without any
further attempt; but an operation that raises exactly that error on
attempt 0 and succeeds on attempt 1 is retried by `request_with_retry`
(a second attempt happens) and the call returns the success instead of
propagating the protocol error. -/
theorem C3_protocol_retried_cex :
    (PyExc.runtimeError "login token2 not found (UI/firmware changed or blocked)").isTransport
        = false
    ∧ request_with_retry
          (fun i =>
            if i = 0 then
              (.error
                  (PyExc.runtimeError
                    "login token2 not found (UI/firmware changed or blocked)") :
                Except PyExc Nat)
            else .ok 7) =
        (.ok 7, 2, [1]) := by
  exact ⟨rfl, by decide⟩

/-- C3 amended: `request_with_retry` draws no distinction between
transport-class and protocol-class failures: any exception raised while
attempts remain triggers a retry (in particular a protocol-class
missing-token error is retried rather than propagated immediately), and
the last exception — of either class — is propagated only after all
attempts have raised. -/
theorem C3_retries_any_exception {α : Type} (f : Nat → Except PyExc α) (n : Nat) :
    (∀ e v, 1 ≤ n → f 0 = .error e → f 1 = .ok v → retryGo f 0 n = (.ok v, 2, [1]))
    ∧ (∀ e, (∀ j, j < n → ∃ e', f j = .error e') → f n = .error e →
        (retryGo f 0 n).1 = .error e) := by
  constructor
  · intro e v hn h0 h1
    have := retryGo_first_success f 1 0 n v hn
      (fun j hj => ⟨e, by rw [show j = 0 by omega]; simpa using h0⟩) (by simpa using h1)
    simpa using this
  · intro e hfail hlast
    have := retryGo_all_fail f n 0 e (by simpa using hfail) (by simpa using hlast)
    rw [this]

/-- C3 amended witness: a protocol-class failure on attempt 0 followed
by a success on attempt 1 is retried and the call succeeds. -/
theorem C3_retries_any_exception_witness :
    retryGo
        (fun i => if i = 0 then (.error (PyExc.runtimeError "boom") : Except PyExc Nat)
          else .ok 9) 0 2 =
      (.ok 9, 2, [1]) :=
  (C3_retries_any_exception
      (fun i => if i = 0 then (.error (PyExc.runtimeError "boom") : Except PyExc Nat)
        else .ok 9) 2).1
    (.runtimeError "boom") 9 (by decide) (by decide) (by decide)

/-- C7 counterexample: the claim says `safe_int` is total and never
raises, but on the input string `"inf"` the code reaches
`int(float("inf"))`, which raises `OverflowError`, and only
`ValueError` is caught: `safe_int` raises instead of coercing. -/
theorem C7_safe_int_raises_cex : safe_int (some "inf") = .error PyExc.overflowError := by
  decide

/-- C7 amended: `safe_int` never raises except when the cleaned value
parses as an infinite float (for example `"inf"` or an overflowing
literal such as `"1e999"`), in which case the uncaught `OverflowError`
from `int(float(...))` propagates.  Otherwise it behaves as claimed:
commas and surrounding whitespace are stripped; the not-applicable
tokens `N/A`, `NA` and the localized unlimited marker `無限制` coerce
to 0; a value that fails integer parsing is parsed as a float and
truncated toward zero; and `"1,234"` yields 1234, `"N/A"` yields 0,
`"abc"` yields 0, `"12.7"` yields 12. -/
theorem C7_safe_int_amended :
    (∀ v : Option String,
        (∃ n, safe_int v = .ok n) ∨
          ∃ s, v = some s
            ∧ (pyFloat (cleanedOf s) = some .inf ∨ pyFloat (cleanedOf s) = some .ninf)
            ∧ safe_int v = .error .overflowError)
    ∧ (∀ s, asciiLower (cleanedOf s) ∈ (["n/a", "na", "無限制"] : List String) →
        safe_int (some s) = .ok 0)
    ∧ (∀ s neg num den, cleanedOf s ≠ "" →
        asciiLower (cleanedOf s) ∉ (["n/a", "na", "無限制"] : List String) →
        pyInt (cleanedOf s) = none →
        pyFloat (cleanedOf s) = some (.fin neg num den) →
        safe_int (some s) = .ok (truncFrac neg num den))
    ∧ safe_int (some "1,234") = .ok 1234
    ∧ safe_int (some "N/A") = .ok 0
    ∧ safe_int (some "abc") = .ok 0
    ∧ safe_int (some "12.7") = .ok 12 := by
  refine ⟨?_, ?_, ?_, by decide, by decide, by decide, by decide⟩
  · intro v
    match v with
    | none => exact .inl ⟨0, rfl⟩
    | some s =>
      rw [safe_int_some_eq]
      split
      · exact .inl ⟨0, rfl⟩
      · cases hInt : pyInt (cleanedOf s) with
        | some n => exact .inl ⟨n, rfl⟩
        | none =>
          cases hF : pyFloat (cleanedOf s) with
          | none => exact .inl ⟨0, rfl⟩
          | some pf =>
            cases pf with
            | fin neg num den => exact .inl ⟨truncFrac neg num den, rfl⟩
            | inf => exact .inr ⟨s, rfl, .inl hF, rfl⟩
            | ninf => exact .inr ⟨s, rfl, .inr hF, rfl⟩
            | nan => exact .inl ⟨0, rfl⟩
  · intro s hmem
    rw [safe_int_some_eq, if_pos (Or.inr hmem)]
  · intro s neg num den hne hmem hInt hF
    rw [safe_int_some_eq, if_neg (not_or.mpr ⟨hne, hmem⟩), hInt, hF]

/-- C7 amended witness: on `"12.7"` integer parsing fails, the float
parse yields the exact fraction 127/10, and `safe_int` returns its
truncation. -/
theorem C7_safe_int_amended_witness :
    safe_int (some "12.7") = .ok (truncFrac false 127 10) :=
  C7_safe_int_amended.2.2.1 "12.7" false 127 10 (by decide) (by decide) (by decide) (by decide)

/-- C5: with the two HTTP exchanges returning non-error statuses,
`login()` fails in exactly two scenarios: a login page from which no
`token2` value can be extracted makes it raise the missing-token
`RuntimeError` without attempting the credential POST at all (the
second component of the result records whether the POST happened); and
a post-login verification GET whose final URL contains `login.html`
makes it raise even though the POST itself succeeded.  Conversely, when
the token is present and the verification URL is clean, `login()`
succeeds. -/
theorem C5_login_failure_modes (env : LoginEnv) (hget : httpRaises env.loginGet = false) :
    (extract_hidden_value env.loginGet.body "token2" = "" →
      login env =
        (.error (.runtimeError "login token2 not found (UI/firmware changed or blocked)"),
          false))
    ∧ (httpRaises env.loginPost = false →
        ((∃ e, (login env).1 = .error e) ↔
          (extract_hidden_value env.loginGet.body "token2" = ""
            ∨ hasSub env.mainGet.url "login.html" = true)))
    ∧ (httpRaises env.loginPost = false →
        extract_hidden_value env.loginGet.body "token2" ≠ "" → (login env).2 = true) := by
  refine ⟨?_, ?_, ?_⟩
  · intro htok
    simp [login, hget, htok]
  · intro hpost
    by_cases htok : extract_hidden_value env.loginGet.body "token2" = ""
    · simp [login, hget, htok]
    · by_cases hsub : hasSub env.mainGet.url "login.html" = true
      · simp [login, hget, hpost, htok, hsub]
      · simp [login, hget, hpost, htok, hsub]
  · intro hpost htok
    by_cases hsub : hasSub env.mainGet.url "login.html" = true
    · simp [login, hget, hpost, htok, hsub]
    · simp [login, hget, hpost, htok, hsub]

/-- C5 witness: a concrete login page without a `token2` input makes
`login` raise the missing-token error with the POST never attempted. -/
theorem C5_login_failure_modes_witness :
    login
        ⟨⟨"http://10.64.48.120/login.html?/main.html", 200,
            "<html><form><input name=\"user\" value=\"\"></form></html>"⟩,
          ⟨"http://10.64.48.120/login.html?/main.html", 200, ""⟩,
          ⟨"http://10.64.48.120/main.html", 200, ""⟩⟩ =
      (.error (.runtimeError "login token2 not found (UI/firmware changed or blocked)"),
        false) :=
  (C5_login_failure_modes _ (by decide)).1 (by decide)

/-- C2 counterexample: the claim says every canonical field — the file
name included — is looked up under the localized header with a fallback
to an English alias.  Whatever string that alias is (the code names
none), the parser violates the contract: on a row that carries the file
name only under the alias, the parsed `file_name` is `None` although
the fallback lookup would find it.  Hence no alias satisfies the spec's
file-name lookup contract. -/
theorem C2_lookup_fallback_cex :
    ¬ ∃ a : String, a ≠ "檔案名稱" ∧ fileNameLookupPerSpec a := by
  rintro ⟨a, hne, h⟩
  have h1 := h [(a, some "x.pdf")]
  have hbw : safe_int (rowGet [(a, some "x.pdf")] "黑白總張數") = .ok 0 := by
    rw [rowGet_single]; split <;> decide
  have hcl : safe_int (rowGet [(a, some "x.pdf")] "全彩總張數") = .ok 0 := by
    rw [rowGet_single]; split <;> decide
  rw [mkEntry_cases, hbw, hcl] at h1
  simp only [Except.map, Except.ok.injEq] at h1
  rw [rowGet_single, if_neg hne] at h1
  have h2 : chainGet [(a, some "x.pdf")] ["檔案名稱", a] = some "x.pdf" := by
    show pyOr (rowGet [(a, some "x.pdf")] "檔案名稱") (rowGet [(a, some "x.pdf")] a)
      = some "x.pdf"
    rw [rowGet_single, if_neg hne, rowGet_single, if_pos rfl]
    rfl
  rw [h2] at h1
  exact Option.noConfusion h1

/-- C2 amended: the localized-then-English fallback exists for job ID,
account job ID, job mode (two aliases: `Job Mode` then `Mode`),
computer name, user name, login name, start date and completion date;
the file name, scan type, destination and the bw/color page counts are
read from their localized header only.  A field absent under all the
headers consulted for it yields `None` (coerced to 0 by `safe_int` for
the numeric fields), never an error. -/
theorem C2_lookup_table_amended (row : Row) (e : Entry) (h : mkEntry row = .ok e) :
    (e.job_id = chainGet row ["工作ID", "Job ID"]
      ∧ e.account_job_id = chainGet row ["帳戶工作ID", "Account Job ID"]
      ∧ e.mode = chainGet row ["工作模式", "Job Mode", "Mode"]
      ∧ e.computer = chainGet row ["電腦名稱", "Computer Name"]
      ∧ e.user = chainGet row ["用戶名稱", "User Name"]
      ∧ e.login = chainGet row ["登入名稱", "Login Name"]
      ∧ e.start = parse_time_value (chainGet row ["開始日期", "Start Date"])
      ∧ e.end_ = parse_time_value (chainGet row ["完成日期", "Completion Date"])
      ∧ e.file_name = rowGet row "檔案名稱"
      ∧ e.scan_type = rowGet row "傳送類型"
      ∧ e.destination = rowGet row "直接位址"
      ∧ safe_int (rowGet row "黑白總張數") = .ok e.bw
      ∧ safe_int (rowGet row "全彩總張數") = .ok e.color)
    ∧ (∀ ks, (∀ k ∈ ks, rowGet row k = none) → chainGet row ks = none) := by
  obtain ⟨bw, color, hbw, hcl, he⟩ := mkEntry_ok_elim h
  subst he
  exact ⟨⟨rfl, rfl, rfl, rfl, rfl, rfl, rfl, rfl, rfl, rfl, rfl, hbw, hcl⟩,
    chainGet_none row⟩

/-- C2 amended witness: on a row carrying only the English `Job ID`
header, the parsed job id is the chained lookup's result. -/
theorem C2_lookup_table_amended_witness :
    (mkEntry [("Job ID", some "7")]).map (fun e => e.job_id) =
      .ok (chainGet [("Job ID", some "7")] ["工作ID", "Job ID"]) := by
  rcases h : mkEntry [("Job ID", some "7")] with pe | e
  · have hok : isOkE (mkEntry [("Job ID", some "7")]) = true := by decide
    rw [h] at hok
    exact absurd hok (by simp [isOkE])
  · have := ((C2_lookup_table_amended _ e h).1).1
    simp only [Except.map, this]

/-- Unfolding of `exceptMapM` on a cons cell into an explicit case
split. -/
lemma exceptMapM_cons {ε α β : Type} (f : α → Except ε β) (a : α) (as_ : List α) :
    exceptMapM f (a :: as_) =
      (match f a with
        | .error e => .error e
        | .ok b =>
          match exceptMapM f as_ with
          | .error e => .error e
          | .ok bs => .ok (b :: bs)) := by
  simp only [exceptMapM]
  cases f a with
  | error e => rfl
  | ok b =>
    cases exceptMapM f as_ with
    | error e => rfl
    | ok bs => rfl

/-- Every element of a successful `exceptMapM` run comes from applying
`f` to some element of the input list. -/
lemma exceptMapM_ok_mem {ε α β : Type} (f : α → Except ε β) :
    ∀ (l : List α) (bs : List β), exceptMapM f l = .ok bs → ∀ b ∈ bs, ∃ a ∈ l, f a = .ok b := by
  intro l
  induction l with
  | nil =>
    intro bs h b hb
    have : bs = [] := (Except.ok.inj h).symm
    subst this
    exact absurd hb (List.not_mem_nil b)
  | cons a as ih =>
    intro bs h b hb
    rw [exceptMapM_cons] at h
    cases hfa : f a with
    | error e => rw [hfa] at h; exact absurd h (by simp)
    | ok b0 =>
      rw [hfa] at h
      cases hrest : exceptMapM f as with
      | error e => rw [hrest] at h; exact absurd h (by simp)
      | ok bs0 =>
        rw [hrest] at h
        have : b0 :: bs0 = bs := Except.ok.inj h
        subst this
        rcases List.mem_cons.mp hb with hb0 | hbs0
        · exact ⟨a, List.mem_cons_self a as, by rw [hfa, hb0]⟩
        · obtain ⟨a', ha', hfa'⟩ := ih bs0 hrest b hbs0
          exact ⟨a', List.mem_cons_of_mem a ha', hfa'⟩

/-- Unfolding of `ucRowValue` into an explicit case split on the usage
collection, with the snapshot record spelled out. -/
lemma ucRowValue_cases (p : String) (ts : DT) (row : Row) :
    ucRowValue p ts row =
      (match collect_usercount_usage row with
        | .error e => .error e
        | .ok usage =>
          if (usage.map (fun u => u.2)).sum = 0 then .ok none
          else
            .ok (some
              { printer_addr := p
                user_name := normalize_name (rowGet row "用戶名稱") "N/A"
                print_bw := usageGet usage "印表機:黑白"
                print_color := usageGet usage "印表機:全彩"
                copy_bw := usageGet usage "影印:黑白"
                copy_color := usageGet usage "影印:全彩"
                other_usage :=
                  (usage.map (fun u => u.2)).sum -
                    (usageGet usage "印表機:黑白" + usageGet usage "印表機:全彩" +
                      usageGet usage "影印:黑白" + usageGet usage "影印:全彩")
                total_pages := (usage.map (fun u => u.2)).sum
                snapshot_time := ts })) := by
  unfold ucRowValue
  cases collect_usercount_usage row with
  | error e => rfl
  | ok usage => rfl

/-- Unfolding of `sync_usercount_to_db` into an explicit case split. -/
lemma sync_usercount_cases (rows : List Row) (p : String) (now : DT) (fn : String) :
    sync_usercount_to_db rows p now fn =
      (match exceptMapM (ucRowValue p (ucTimestamp now fn)) rows with
        | .error e => .error e
        | .ok opts => .ok opts.reduceOption) := by
  simp only [sync_usercount_to_db]
  cases exceptMapM (ucRowValue p (ucTimestamp now fn)) rows with
  | error e => rfl
  | ok opts => rfl

/-- A snapshot row actually produced by `ucRowValue` has a nonzero
total. -/
lemma ucRowValue_some_total {p : String} {ts : DT} {row : Row} {v : UCRow}
    (h : ucRowValue p ts row = .ok (some v)) : v.total_pages ≠ 0 := by
  rw [ucRowValue_cases] at h
  cases hc : collect_usercount_usage row with
  | error e => simp only [hc] at h; exact Except.noConfusion h
  | ok usage =>
    simp only [hc] at h
    by_cases h0 : (usage.map (fun u => u.2)).sum = 0
    · rw [if_pos h0] at h
      exact absurd (Except.ok.inj h) (by simp)
    · rw [if_neg h0] at h
      have := Except.ok.inj h
      have hv := (Option.some.inj this).symm
      rw [hv]
      exact h0

/-- C8: during user-count ingestion every parsed row whose computed
total page count is zero is dropped — `sync_usercount_to_db` exposes no
include-zero override (its parameters are the file and the printer
address; the spec's "include zero" override is the `show_zero` flag of
the query paths, not of ingestion), so the claim's exception clause is
vacuous at ingestion and zero-total rows are never inserted into the
snapshot. -/
theorem C8_zero_total_dropped :
    (∀ rows p now fn vs, sync_usercount_to_db rows p now fn = .ok vs →
      ∀ v ∈ vs, v.total_pages ≠ 0)
    ∧ (∀ p ts row usage, collect_usercount_usage row = .ok usage →
        (usage.map (fun u => u.2)).sum = 0 → ucRowValue p ts row = .ok none) := by
  constructor
  · intro rows p now fn vs hsync v hv
    rw [sync_usercount_cases] at hsync
    cases hm : exceptMapM (ucRowValue p (ucTimestamp now fn)) rows with
    | error e => simp only [hm] at hsync; exact Except.noConfusion hsync
    | ok opts =>
      simp only [hm] at hsync
      have hvs : opts.reduceOption = vs := Except.ok.inj hsync
      rw [← hvs] at hv
      have hsome : some v ∈ opts := List.reduceOption_mem_iff.mp hv
      obtain ⟨row, _, hrow⟩ := exceptMapM_ok_mem _ rows opts hm (some v) hsome
      exact ucRowValue_some_total hrow
  · intro p ts row usage hc h0
    rw [ucRowValue_cases]
    simp only [hc]
    rw [if_pos h0]

/-- C8 witness: a parsed row whose usage categories sum to zero
produces no snapshot tuple. -/
theorem C8_zero_total_dropped_witness :
    ucRowValue "http://10.64.48.120" ⟨2026, 1, 1, 0, 0, 0⟩
        [("用戶名稱", some "alice"), ("印表機:黑白已使用", some "0")] =
      .ok none :=
  C8_zero_total_dropped.2 "http://10.64.48.120" ⟨2026, 1, 1, 0, 0, 0⟩
    [("用戶名稱", some "alice"), ("印表機:黑白已使用", some "0")]
    [("印表機:黑白", 0)] (by decide) (by decide)

/-- Unfolding of `sync_csv_to_db` into an explicit case split. -/
lemma sync_csv_cases (rows : List Row) (p : String) (db : List JobRow) :
    sync_csv_to_db rows p db =
      (match joblog_entries rows with
        | .error e => .error e
        | .ok entries => .ok ((syncValues p entries).foldl upsert db)) := by
  simp only [sync_csv_to_db]
  cases joblog_entries rows with
  | error e => rfl
  | ok entries => rfl

/-- A value tuple comes from an entry with a present start time. -/
lemma syncValues_mem {p : String} {entries : List Entry} {v : JobRow}
    (hv : v ∈ syncValues p entries) :
    ∃ e ∈ entries, e.start.isSome = true ∧ v = toJobRow p e := by
  simp only [syncValues, List.mem_map, List.mem_filter] at hv
  obtain ⟨e, ⟨he, hs⟩, hve⟩ := hv
  exact ⟨e, he, hs, hve.symm⟩

/-- The parser computes the page total as the sum of the bw and color
counts. -/
lemma mkEntry_pages {row : Row} {e : Entry} (h : mkEntry row = .ok e) :
    e.pages = e.bw + e.color := by
  obtain ⟨bw, color, _, _, he⟩ := mkEntry_ok_elim h
  subst he
  rfl

/-- An upsert preserves any property that survives the
`ON DUPLICATE KEY UPDATE` merge. -/
lemma upsert_pres (P : JobRow → Prop)
    (hupd : ∀ old new, P old → P new → P (applyDupUpdate old new)) :
    ∀ (db : List JobRow) (r : JobRow), (∀ x ∈ db, P x) → P r → ∀ x ∈ upsert db r, P x := by
  intro db
  induction db with
  | nil =>
    intro r _ hr x hx
    simp only [upsert, List.mem_singleton] at hx
    rw [hx]
    exact hr
  | cons y ys ih =>
    intro r hdb hr x hx
    simp only [upsert] at hx
    by_cases hc : keyConflict y r = true
    · rw [if_pos hc] at hx
      rcases List.mem_cons.mp hx with h1 | h2
      · rw [h1]
        exact hupd y r (hdb y (by simp)) hr
      · exact hdb x (by simp [h2])
    · rw [if_neg hc] at hx
      rcases List.mem_cons.mp hx with h1 | h2
      · rw [h1]
        exact hdb y (by simp)
      · exact ih r (fun z hz => hdb z (by simp [hz])) hr x h2

/-- The batch fold of upserts preserves such a property. -/
lemma foldl_upsert_pres (P : JobRow → Prop)
    (hupd : ∀ old new, P old → P new → P (applyDupUpdate old new)) :
    ∀ (vs : List JobRow) (db : List JobRow), (∀ x ∈ db, P x) → (∀ v ∈ vs, P v) →
      ∀ x ∈ vs.foldl upsert db, P x := by
  intro vs
  induction vs with
  | nil =>
    intro db hdb _ x hx
    exact hdb x hx
  | cons v vs ih =>
    intro db hdb hvs x hx
    simp only [List.foldl_cons] at hx
    exact ih (upsert db v) (upsert_pres P hupd db v hdb (hvs v (by simp)))
      (fun v' hv' => hvs v' (by simp [hv'])) x hx

/-- C4: every row persisted by `sync_csv_to_db` has a non-null start
time (a parsed entry with a null or unparsable start time is skipped
and never reaches the table), and its stored total page count is the
sum of its stored bw and color counts — the parser computes the total
as `bw + color` (no total is ever read from the source file), and on a
key conflict all three counters are overwritten together, so the
invariant survives upserts. -/
theorem C4_persisted_invariant (rows : List Row) (p : String) (db db' : List JobRow)
    (hsync : sync_csv_to_db rows p db = .ok db')
    (hdb : ∀ r ∈ db, r.start_time.isSome = true
      ∧ r.total_pages = r.bw_pages + r.color_pages) :
    (∀ r ∈ db', r.start_time.isSome = true ∧ r.total_pages = r.bw_pages + r.color_pages)
    ∧ (∀ row e, mkEntry row = .ok e → e.pages = e.bw + e.color) := by
  refine ⟨?_, fun row e h => mkEntry_pages h⟩
  rw [sync_csv_cases] at hsync
  cases hent : joblog_entries rows with
  | error e => simp only [hent] at hsync; exact Except.noConfusion hsync
  | ok entries =>
    simp only [hent] at hsync
    have hdb' : db' = (syncValues p entries).foldl upsert db := (Except.ok.inj hsync).symm
    subst hdb'
    refine foldl_upsert_pres _ ?_ _ _ hdb ?_
    · intro old new hold hnew
      exact ⟨hold.1, hnew.2⟩
    · intro v hv
      obtain ⟨e, he, hstart, hve⟩ := syncValues_mem hv
      obtain ⟨row, _, hrow⟩ := exceptMapM_ok_mem _ rows entries hent e he
      subst hve
      exact ⟨hstart, mkEntry_pages hrow⟩

/-- C4 witness: a concrete CSV with one dated row ingested into an
empty table satisfies the invariant. -/
theorem C4_persisted_invariant_witness :
    ∃ db', sync_csv_to_db
        [[("開始日期", some "2026-02-05 10:00:00"), ("黑白總張數", some "3"),
          ("全彩總張數", some "2"), ("工作ID", some "1")]] "http://10.64.48.120" [] = .ok db'
      ∧ ∀ r ∈ db', r.start_time.isSome = true
          ∧ r.total_pages = r.bw_pages + r.color_pages := by
  rcases h : sync_csv_to_db
      [[("開始日期", some "2026-02-05 10:00:00"), ("黑白總張數", some "3"),
        ("全彩總張數", some "2"), ("工作ID", some "1")]] "http://10.64.48.120" [] with pe | db'
  · have hok : isOkE (sync_csv_to_db
        [[("開始日期", some "2026-02-05 10:00:00"), ("黑白總張數", some "3"),
          ("全彩總張數", some "2"), ("工作ID", some "1")]] "http://10.64.48.120" []) = true := by
      decide
    rw [h] at hok
    exact absurd hok (by simp [isOkE])
  · exact ⟨db', rfl,
      (C4_persisted_invariant _ "http://10.64.48.120" [] db' h (by simp)).1⟩

/-- The `ON DUPLICATE KEY UPDATE` merge never touches the unique-key
columns, so conflict status is unchanged by an update. -/
lemma keyConflict_applyDupUpdate (x r' v : JobRow) :
    keyConflict (applyDupUpdate x r') v = keyConflict x v := rfl

/-- An upsert never removes a row conflicting with `v`: the update
keeps key columns and the insert only appends. -/
lemma upsert_keeps_witness (v r : JobRow) :
    ∀ d : List JobRow, (∃ x ∈ d, keyConflict x v = true) →
      ∃ x ∈ upsert d r, keyConflict x v = true := by
  intro d
  induction d with
  | nil =>
    rintro ⟨x, hx, _⟩
    exact absurd hx (List.not_mem_nil x)
  | cons y ys ih =>
    rintro ⟨x, hx, hk⟩
    simp only [upsert]
    by_cases hc : keyConflict y r = true
    · rw [if_pos hc]
      rcases List.mem_cons.mp hx with h1 | h2
      · exact ⟨applyDupUpdate y r, by simp, by rw [keyConflict_applyDupUpdate, ← h1]; exact hk⟩
      · exact ⟨x, by simp [h2], hk⟩
    · rw [if_neg hc]
      rcases List.mem_cons.mp hx with h1 | h2
      · exact ⟨y, by simp, h1 ▸ hk⟩
      · obtain ⟨x', hx', hk'⟩ := ih ⟨x, h2, hk⟩
        exact ⟨x', by simp [hx'], hk'⟩

/-- After upserting a self-conflicting row, some row of the table
conflicts with it. -/
lemma upsert_self_witness (r : JobRow) (hself : keyConflict r r = true) :
    ∀ d : List JobRow, ∃ x ∈ upsert d r, keyConflict x r = true := by
  intro d
  induction d with
  | nil => exact ⟨r, by simp [upsert], hself⟩
  | cons y ys ih =>
    simp only [upsert]
    by_cases hc : keyConflict y r = true
    · rw [if_pos hc]
      exact ⟨applyDupUpdate y r, by simp, by rw [keyConflict_applyDupUpdate]; exact hc⟩
    · rw [if_neg hc]
      obtain ⟨x, hx, hk⟩ := ih
      exact ⟨x, by simp [hx], hk⟩

/-- A whole batch of upserts never removes a conflict witness. -/
lemma foldl_keeps_witness (v : JobRow) :
    ∀ (vs d : List JobRow), (∃ x ∈ d, keyConflict x v = true) →
      ∃ x ∈ vs.foldl upsert d, keyConflict x v = true := by
  intro vs
  induction vs with
  | nil => intro d h; exact h
  | cons w ws ih =>
    intro d h
    simp only [List.foldl_cons]
    exact ih (upsert d w) (upsert_keeps_witness v w d h)

/-- After folding a batch of self-conflicting rows into any table,
every row of the batch has a conflict witness in the result. -/
lemma foldl_self_witnesses :
    ∀ (vs : List JobRow), (∀ v ∈ vs, keyConflict v v = true) →
      ∀ (d : List JobRow), ∀ v ∈ vs, ∃ x ∈ vs.foldl upsert d, keyConflict x v = true := by
  intro vs
  induction vs with
  | nil =>
    intro _ d v hv
    exact absurd hv (List.not_mem_nil v)
  | cons w ws ih =>
    intro hselfs d v hv
    simp only [List.foldl_cons]
    rcases List.mem_cons.mp hv with h1 | h2
    · subst h1
      exact foldl_keeps_witness v ws (upsert d v)
        (upsert_self_witness v (hselfs v (by simp)) d)
    · exact ih (fun z hz => hselfs z (by simp [hz])) (upsert d w) v h2

/-- An upsert that hits a conflict leaves the row count unchanged. -/
lemma upsert_length_conflict (r : JobRow) :
    ∀ d : List JobRow, (∃ x ∈ d, keyConflict x r = true) →
      (upsert d r).length = d.length := by
  intro d
  induction d with
  | nil =>
    rintro ⟨x, hx, _⟩
    exact absurd hx (List.not_mem_nil x)
  | cons y ys ih =>
    rintro ⟨x, hx, hk⟩
    simp only [upsert]
    by_cases hc : keyConflict y r = true
    · rw [if_pos hc]
      simp
    · rw [if_neg hc]
      rcases List.mem_cons.mp hx with h1 | h2
      · exact absurd (h1 ▸ hk) hc
      · simp only [List.length_cons]
        rw [ih ⟨x, h2, hk⟩]

/-- A batch of upserts all of which hit conflicts leaves the row count
unchanged. -/
lemma foldl_length_conflicts :
    ∀ (vs d : List JobRow), (∀ v ∈ vs, ∃ x ∈ d, keyConflict x v = true) →
      (vs.foldl upsert d).length = d.length := by
  intro vs
  induction vs with
  | nil => intro d _; rfl
  | cons w ws ih =>
    intro d h
    simp only [List.foldl_cons]
    rw [ih (upsert d w) (fun v hv => upsert_keeps_witness v w d (h v (by simp [hv])))]
    exact upsert_length_conflict w d (h w (by simp))

/-- A row with a non-null job id and a non-null start time conflicts
with itself: its unique key is fully non-null. -/
lemma keyConflict_self {v : JobRow} (hj : v.job_id.isSome = true)
    (hs : v.start_time.isSome = true) : keyConflict v v = true := by
  obtain ⟨j, hjv⟩ := Option.isSome_iff_exists.mp hj
  obtain ⟨t, hsv⟩ := Option.isSome_iff_exists.mp hs
  simp [keyConflict, hjv, hsv]

/-- Value tuples always carry a non-null start time (null starts were
filtered out). -/
lemma syncValues_start_isSome {p : String} {entries : List Entry} {v : JobRow}
    (hv : v ∈ syncValues p entries) : v.start_time.isSome = true := by
  obtain ⟨e, _, hstart, hve⟩ := syncValues_mem hv
  subst hve
  exact hstart

/-- Upserting a row whose first conflict is at position `x` rewrites
exactly that row through the `ON DUPLICATE KEY UPDATE` merge and leaves
every other row in place. -/
lemma upsert_first_conflict (r x : JobRow) :
    ∀ (xs ys : List JobRow), (∀ z ∈ xs, keyConflict z r = false) → keyConflict x r = true →
      upsert (xs ++ x :: ys) r = xs ++ applyDupUpdate x r :: ys := by
  intro xs
  induction xs with
  | nil =>
    intro ys _ hx
    simp only [List.nil_append, upsert, if_pos hx]
  | cons z zs ih =>
    intro ys hxs hx
    have hz : keyConflict z r = false := hxs z (by simp)
    simp only [List.cons_append, upsert]
    rw [if_neg (by simp [hz])]
    simp only [List.append_eq]
    rw [ih ys (fun w hw => hxs w (by simp [hw])) hx]

/-- C1 counterexample: the claim quantifies over every parsed CSV, but
a CSV row with a start date and no job-id column persists a row whose
`job_id` is SQL `NULL`, and a `NULL` never collides in a MySQL unique
index; re-ingesting the same CSV therefore inserts a second copy and
the row count grows from 1 to 2 instead of staying unchanged. -/
theorem C1_null_jobid_cex :
    sync_csv_to_db [[("開始日期", some "2026-02-05 10:00:00"), ("黑白總張數", some "1")]]
        "http://10.64.48.120" [] =
      .ok [⟨"http://10.64.48.120", none, none, none, none, none, none,
        some ⟨2026, 2, 5, 10, 0, 0⟩, none, 1, 0, 1, none, none, none⟩]
    ∧ sync_csv_to_db [[("開始日期", some "2026-02-05 10:00:00"), ("黑白總張數", some "1")]]
        "http://10.64.48.120"
        [⟨"http://10.64.48.120", none, none, none, none, none, none,
        some ⟨2026, 2, 5, 10, 0, 0⟩, none, 1, 0, 1, none, none, none⟩] =
      .ok [⟨"http://10.64.48.120", none, none, none, none, none, none,
        some ⟨2026, 2, 5, 10, 0, 0⟩, none, 1, 0, 1, none, none, none⟩,
        ⟨"http://10.64.48.120", none, none, none, none, none, none,
        some ⟨2026, 2, 5, 10, 0, 0⟩, none, 1, 0, 1, none, none, none⟩]
    := by
  constructor
  · decide
  · decide

/-- C1 amended: provided every persisted row of the CSV carries a
non-null job id (so the natural key `(printer, job id, start time)` is
fully non-null — `NULL` keys never collide in MySQL), re-ingesting the
same parsed CSV leaves the row count unchanged; and on a key conflict
the upsert rewrites exactly the conflicting row, overwriting only file
name, scan type, destination and the bw/color/total page counts with
the new values while printer address, job id, account job id, mode,
user name, login name, computer name, start time and end time keep
their stored (first-observed) values. -/
theorem C1_upsert_idempotent (rows : List Row) (p : String) (db : List JobRow)
    (hjob : (persistedValues rows p).map (fun vs => vs.all (fun v => v.job_id.isSome)) =
      .ok true) :
    (∃ db₁ db₂, sync_csv_to_db rows p db = .ok db₁ ∧ sync_csv_to_db rows p db₁ = .ok db₂
      ∧ db₂.length = db₁.length)
    ∧ (∀ d r x xs ys, d = xs ++ x :: ys → (∀ z ∈ xs, keyConflict z r = false) →
        keyConflict x r = true → upsert d r = xs ++ applyDupUpdate x r :: ys)
    ∧ (∀ old new : JobRow,
        (applyDupUpdate old new).printer_addr = old.printer_addr
        ∧ (applyDupUpdate old new).job_id = old.job_id
        ∧ (applyDupUpdate old new).account_job_id = old.account_job_id
        ∧ (applyDupUpdate old new).mode = old.mode
        ∧ (applyDupUpdate old new).user_name = old.user_name
        ∧ (applyDupUpdate old new).login_name = old.login_name
        ∧ (applyDupUpdate old new).computer_name = old.computer_name
        ∧ (applyDupUpdate old new).start_time = old.start_time
        ∧ (applyDupUpdate old new).end_time = old.end_time
        ∧ (applyDupUpdate old new).file_name = new.file_name
        ∧ (applyDupUpdate old new).scan_type = new.scan_type
        ∧ (applyDupUpdate old new).destination = new.destination
        ∧ (applyDupUpdate old new).bw_pages = new.bw_pages
        ∧ (applyDupUpdate old new).color_pages = new.color_pages
        ∧ (applyDupUpdate old new).total_pages = new.total_pages) := by
  refine ⟨?_, ?_, ?_⟩
  · cases hent : joblog_entries rows with
    | error e =>
      rw [show persistedValues rows p = .error e by
        simp [persistedValues, hent, Except.map]] at hjob
      exact absurd hjob (by simp [Except.map])
    | ok entries =>
      rw [show persistedValues rows p = .ok (syncValues p entries) by
        simp [persistedValues, hent, Except.map]] at hjob
      simp only [Except.map, Except.ok.injEq] at hjob
      have hjobs : ∀ v ∈ syncValues p entries, v.job_id.isSome = true :=
        fun v hv => List.all_eq_true.mp hjob v hv
      have hselfs : ∀ v ∈ syncValues p entries, keyConflict v v = true :=
        fun v hv => keyConflict_self (hjobs v hv) (syncValues_start_isSome hv)
      refine ⟨(syncValues p entries).foldl upsert db,
        (syncValues p entries).foldl upsert ((syncValues p entries).foldl upsert db),
        ?_, ?_, ?_⟩
      · rw [sync_csv_cases, hent]
      · rw [sync_csv_cases, hent]
      · exact foldl_length_conflicts (syncValues p entries)
          ((syncValues p entries).foldl upsert db)
          (foldl_self_witnesses (syncValues p entries) hselfs db)
  · intro d r x xs ys hd hxs hx
    exact hd ▸ upsert_first_conflict r x xs ys hxs hx
  · intro old new
    exact ⟨rfl, rfl, rfl, rfl, rfl, rfl, rfl, rfl, rfl, rfl, rfl, rfl, rfl, rfl, rfl⟩

/-- C1 amended witness: a one-row CSV with a job id, ingested twice
into an empty table, leaves the row count unchanged the second time. -/
theorem C1_upsert_idempotent_witness :
    ∃ db₁ db₂, sync_csv_to_db [[("工作ID", some "1"), ("開始日期", some "2026-02-05 10:00:00")]]
        "http://10.64.48.120" [] = .ok db₁
      ∧ sync_csv_to_db [[("工作ID", some "1"), ("開始日期", some "2026-02-05 10:00:00")]]
          "http://10.64.48.120" db₁ = .ok db₂
      ∧ db₂.length = db₁.length :=
  (C1_upsert_idempotent [[("工作ID", some "1"), ("開始日期", some "2026-02-05 10:00:00")]]
    "http://10.64.48.120" [] (by decide)).1

/-! ## Helper lemmas about the cleanup pass -/

lemma mem_insertDesc {a x : FSEntry} :
    ∀ l : List FSEntry, (x ∈ insertDesc a l ↔ x = a ∨ x ∈ l) := by
  intro l
  induction l with
  | nil => simp [insertDesc]
  | cons y ys ih =>
    simp only [insertDesc]
    split
    · simp only [List.mem_cons]
    · simp only [List.mem_cons, ih]
      tauto

lemma mem_pySortDesc {x : FSEntry} :
    ∀ l : List FSEntry, (x ∈ pySortDesc l ↔ x ∈ l) := by
  intro l
  induction l with
  | nil => simp [pySortDesc]
  | cons y ys ih =>
    simp only [pySortDesc, mem_insertDesc, ih, List.mem_cons]

lemma dirDeletions_mem {listing : List FSEntry} {n : String} (h : n ∈ dirDeletions listing) :
    ∃ e ∈ eligibleFiles listing, e.name = n := by
  simp only [dirDeletions, List.mem_flatMap] at h
  obtain ⟨t, _, hn⟩ := h
  simp only [List.mem_map] at hn
  obtain ⟨e, he, hne⟩ := hn
  have he2 : e ∈ pySortDesc (groupOf (eligibleFiles listing) t) := List.mem_of_mem_drop he
  have he3 : e ∈ groupOf (eligibleFiles listing) t := (mem_pySortDesc _).mp he2
  have he4 : e ∈ eligibleFiles listing := List.mem_of_mem_filter he3
  exact ⟨e, he4, hne⟩

lemma eligible_props {listing : List FSEntry} {e : FSEntry} (h : e ∈ eligibleFiles listing) :
    e ∈ listing ∧ csvGlob e.name = true ∧ e.isFile = true ∧ 3 ≤ (stemParts e.name).length := by
  simp only [eligibleFiles, List.mem_filter, Bool.and_eq_true, decide_eq_true_eq] at h
  exact ⟨h.1, h.2.1.1, h.2.1.2, h.2.2⟩

/-- C10: the deletion frame of the cleanup pass.  A name it unlinks in
the usercount (resp. joblog) directory belongs to an entry of that
directory's listing which is a regular file, matches the `*.csv` glob,
and whose stem splits on underscores into at least three parts.  The
model touches nothing but the two listings, so every other file — a
non-CSV file, a CSV whose stem has fewer than three parts, a non-file,
or anything outside the two export directories — is left unchanged by
every cleanup run. -/
theorem C10_deletion_frame (uc jl : List FSEntry) (n : String) :
    (n ∈ (cleanup_old_exports uc jl).1 →
      ∃ e ∈ uc, e.name = n ∧ csvGlob n = true ∧ e.isFile = true ∧ 3 ≤ (stemParts n).length)
    ∧ (n ∈ (cleanup_old_exports uc jl).2 →
      ∃ e ∈ jl, e.name = n ∧ csvGlob n = true ∧ e.isFile = true
        ∧ 3 ≤ (stemParts n).length) := by
  constructor <;> intro h
  · obtain ⟨e, he, hen⟩ := dirDeletions_mem h
    obtain ⟨hmem, hglob, hfile, hparts⟩ := eligible_props he
    exact ⟨e, hmem, hen, hen ▸ hglob, hfile, hen ▸ hparts⟩
  · obtain ⟨e, he, hen⟩ := dirDeletions_mem h
    obtain ⟨hmem, hglob, hfile, hparts⟩ := eligible_props he
    exact ⟨e, hmem, hen, hen ▸ hglob, hfile, hen ▸ hparts⟩

/-- C10 witness: with three same-tag CSV files in the usercount
directory, the one deleted name is a regular `.csv` file of that
listing with a three-part stem. -/
theorem C10_deletion_frame_witness :
    "uc_tag_20230101-000000.csv" ∈
        (cleanup_old_exports
          [⟨"uc_tag_20230101-000000.csv", true⟩, ⟨"uc_tag_20230102-000000.csv", true⟩,
            ⟨"uc_tag_20230103-000000.csv", true⟩] []).1
    ∧ ∃ e ∈ ([⟨"uc_tag_20230101-000000.csv", true⟩, ⟨"uc_tag_20230102-000000.csv", true⟩,
        ⟨"uc_tag_20230103-000000.csv", true⟩] : List FSEntry),
        e.name = "uc_tag_20230101-000000.csv" ∧ csvGlob "uc_tag_20230101-000000.csv" = true
          ∧ e.isFile = true ∧ 3 ≤ (stemParts "uc_tag_20230101-000000.csv").length :=
  ⟨by decide,
    (C10_deletion_frame
        [⟨"uc_tag_20230101-000000.csv", true⟩, ⟨"uc_tag_20230102-000000.csv", true⟩,
          ⟨"uc_tag_20230103-000000.csv", true⟩] [] "uc_tag_20230101-000000.csv").1
      (by decide)⟩

lemma lexLt_asymm : ∀ a b : List Char, lexLt a b = true → lexLe b a = false := by
  intro a
  induction a with
  | nil =>
    intro b h
    cases b with
    | nil => exact absurd h (by simp [lexLt])
    | cons c cs => rfl
  | cons x xs ih =>
    intro b h
    cases b with
    | nil => exact absurd h (by simp [lexLt])
    | cons y ys =>
      simp only [lexLt] at h
      simp only [lexLe]
      by_cases h1 : x.toNat < y.toNat
      · rw [if_neg (by omega), if_pos h1]
      · rw [if_neg h1] at h
        by_cases h2 : y.toNat < x.toNat
        · rw [if_pos h2] at h
          exact absurd h (by simp)
        · rw [if_neg h2] at h
          rw [if_neg h2, if_neg h1]
          exact ih ys h

/-- Inserting a file whose name is smaller than every name in the list
appends it at the end. -/
lemma insertDesc_append_of_lt (a : FSEntry) :
    ∀ l : List FSEntry, (∀ y ∈ l, nameLt a.name y.name = true) →
      insertDesc a l = l ++ [a] := by
  intro l
  induction l with
  | nil => intro _; rfl
  | cons y ys ih =>
    intro h
    have hy : nameLe y.name a.name = false := lexLt_asymm _ _ (h y (by simp))
    simp only [insertDesc]
    rw [if_neg (by simp [hy]), ih (fun z hz => h z (by simp [hz]))]
    rfl

/-- Sorting descending a list whose names strictly increase reverses
it. -/
lemma pySortDesc_sorted_asc :
    ∀ l : List FSEntry, l.Pairwise (fun x y => nameLt x.name y.name = true) →
      pySortDesc l = l.reverse := by
  intro l
  induction l with
  | nil => intro _; rfl
  | cons x xs ih =>
    intro h
    rw [List.pairwise_cons] at h
    simp only [pySortDesc]
    rw [ih h.2, insertDesc_append_of_lt x _ (fun y hy => h.1 y (List.mem_reverse.mp hy))]
    simp

lemma foldl_dedup_mem :
    ∀ (l acc : List String) (a : String),
      (a ∈ l.foldl (fun acc t => if t ∈ acc then acc else acc ++ [t]) acc ↔
        a ∈ acc ∨ a ∈ l) := by
  intro l
  induction l with
  | nil =>
    intro acc a
    simp
  | cons t ts ih =>
    intro acc a
    simp only [List.foldl_cons]
    rw [ih]
    by_cases ht : t ∈ acc
    · rw [if_pos ht]
      simp only [List.mem_cons]
      constructor
      · rintro (h | h)
        · exact .inl h
        · exact .inr (.inr h)
      · rintro (h | h | h)
        · exact .inl h
        · exact .inl (h ▸ ht)
        · exact .inr h
    · rw [if_neg ht]
      simp only [List.mem_append, List.mem_singleton, List.mem_cons]
      tauto

lemma mem_tagsIn {fs : List FSEntry} {t : String} :
    t ∈ tagsIn fs ↔ ∃ e ∈ fs, tagOf e.name = t := by
  unfold tagsIn dedupKeepFirst
  rw [foldl_dedup_mem]
  simp [List.mem_map, eq_comm]

lemma groupOf_tag {fs : List FSEntry} {t : String} {e : FSEntry} (h : e ∈ groupOf fs t) :
    tagOf e.name = t ∧ e ∈ fs := by
  simp only [groupOf, List.mem_filter, decide_eq_true_eq] at h
  exact ⟨h.2, h.1⟩

/-- C9: for a (directory, printer-tag) group of export artifacts whose
file names strictly increase in listing order (the artifact naming
scheme puts a fixed-width timestamp at the end of names sharing one
prefix and tag, so strictly increasing timestamps give strictly
increasing names, oldest first), the cleanup pass deletes every file of
the group except the 2 with the largest names — the 2 most recent —
which it keeps: `reverse.take 2` is the two newest, `reverse.drop 2`
the rest.  The name-nodup hypothesis says the directory listing has no
duplicate file names. -/
theorem C9_retention_keeps_two_newest (listing : List FSEntry) (t : String)
    (hnd : ((eligibleFiles listing).map (fun e => e.name)).Nodup)
    (hsorted : (groupOf (eligibleFiles listing) t).Pairwise
      (fun x y => nameLt x.name y.name = true)) :
    (∀ x ∈ (groupOf (eligibleFiles listing) t).reverse.drop 2,
      x.name ∈ dirDeletions listing)
    ∧ ∀ x ∈ (groupOf (eligibleFiles listing) t).reverse.take 2,
        x.name ∉ dirDeletions listing := by
  have hsort := pySortDesc_sorted_asc _ hsorted
  constructor
  · intro x hx
    have hxG : x ∈ groupOf (eligibleFiles listing) t :=
      List.mem_reverse.mp (List.mem_of_mem_drop hx)
    have hxe : x ∈ eligibleFiles listing := (groupOf_tag hxG).2
    have ht : t ∈ tagsIn (eligibleFiles listing) :=
      mem_tagsIn.mpr ⟨x, hxe, (groupOf_tag hxG).1⟩
    simp only [dirDeletions, List.mem_flatMap]
    exact ⟨t, ht, by rw [hsort]; exact List.mem_map.mpr ⟨x, hx, rfl⟩⟩
  · intro x hx hdel
    simp only [dirDeletions, List.mem_flatMap] at hdel
    obtain ⟨t', ht', hn⟩ := hdel
    simp only [List.mem_map] at hn
    obtain ⟨y, hy, hyn⟩ := hn
    have hyG : y ∈ groupOf (eligibleFiles listing) t' :=
      (mem_pySortDesc _).mp (List.mem_of_mem_drop hy)
    have hye : y ∈ eligibleFiles listing := (groupOf_tag hyG).2
    have hxG : x ∈ groupOf (eligibleFiles listing) t :=
      List.mem_reverse.mp (List.mem_of_mem_take hx)
    have hxe : x ∈ eligibleFiles listing := (groupOf_tag hxG).2
    have hxy : y = x := List.inj_on_of_nodup_map hnd hye hxe hyn
    subst hxy
    have htt : t' = t := by
      rw [← (groupOf_tag hyG).1, (groupOf_tag hxG).1]
    subst t'
    rw [hsort] at hy
    have hGnd : (groupOf (eligibleFiles listing) t).reverse.Nodup := by
      refine List.nodup_reverse.mpr (List.Nodup.filter _ ?_)
      exact List.Nodup.of_map _ hnd
    rw [← List.take_append_drop 2 (groupOf (eligibleFiles listing) t).reverse] at hGnd
    exact List.disjoint_of_nodup_append hGnd hx hy

/-- C9 witness: five same-tag artifacts with strictly increasing
timestamps in their names; the oldest is deleted and the newest is
kept. -/
theorem C9_retention_keeps_two_newest_witness :
    ((⟨"uc_tag_20230101-000000.csv", true⟩ : FSEntry).name ∈
      dirDeletions
        [⟨"uc_tag_20230101-000000.csv", true⟩, ⟨"uc_tag_20230102-000000.csv", true⟩,
          ⟨"uc_tag_20230103-000000.csv", true⟩, ⟨"uc_tag_20230104-000000.csv", true⟩,
          ⟨"uc_tag_20230105-000000.csv", true⟩])
    ∧ (⟨"uc_tag_20230105-000000.csv", true⟩ : FSEntry).name ∉
      dirDeletions
        [⟨"uc_tag_20230101-000000.csv", true⟩, ⟨"uc_tag_20230102-000000.csv", true⟩,
          ⟨"uc_tag_20230103-000000.csv", true⟩, ⟨"uc_tag_20230104-000000.csv", true⟩,
          ⟨"uc_tag_20230105-000000.csv", true⟩] :=
  ⟨(C9_retention_keeps_two_newest
      [⟨"uc_tag_20230101-000000.csv", true⟩, ⟨"uc_tag_20230102-000000.csv", true⟩,
        ⟨"uc_tag_20230103-000000.csv", true⟩, ⟨"uc_tag_20230104-000000.csv", true⟩,
        ⟨"uc_tag_20230105-000000.csv", true⟩] "tag" (by decide) (by decide)).1
      ⟨"uc_tag_20230101-000000.csv", true⟩ (by decide),
    (C9_retention_keeps_two_newest
      [⟨"uc_tag_20230101-000000.csv", true⟩, ⟨"uc_tag_20230102-000000.csv", true⟩,
        ⟨"uc_tag_20230103-000000.csv", true⟩, ⟨"uc_tag_20230104-000000.csv", true⟩,
        ⟨"uc_tag_20230105-000000.csv", true⟩] "tag" (by decide) (by decide)).2
      ⟨"uc_tag_20230105-000000.csv", true⟩ (by decide)⟩

end Sharp
